import Mathlib

/-!
Verification development for the Voxel Terrain Reasoning Engine
(`vintage_story_core`: `pathfinding.py`, `visibility.py`, `types.py`).

The Python source is shallowly embedded:
* block samples become the `Block` structure (the two wire encodings, flat
  and nested `worldPos`, normalize to the same fields before any logic runs,
  exactly as both Python ingestion functions do);
* Python `set`s become `List`s with decidable membership (only membership is
  ever used, plus one iteration whose result is proved order-robust);
* Python `dict`s become association lists preserving insertion order of keys
  (`agGet` / `agSet`), since `heightmap.keys()` iteration order matters to
  `_find_edge_goal`;
* Python floats become exact rationals `ℚ`; where the source computes a
  Euclidean norm only to compare it (`_find_edge_goal` projections,
  `max_distance`), the embedding compares the equivalent exact quantity
  (integer dot products, squared distances), a strictly monotone
  reparameterization that preserves every comparison the source makes;
* the unbounded `while` loops (A*, the voxel walk) take an explicit fuel
  argument; theorems quantify over the fuel.
-/

namespace VS

/- Batteries marks the arithmetic on `Rat` `@[irreducible]`; re-allow
unfolding so that concrete runs of the embedded code evaluate by `decide`. -/
attribute [local semireducible] Rat.add Rat.sub Rat.mul Rat.inv

/-! ## Strings: lower-casing and substring search

Embeds Python's `code.lower()` and `pattern in code_lower`. -/

def lowerChars (s : String) : List Char := s.toList.map Char.toLower

/-- Does the second list start with the first? -/
def charsStart : List Char → List Char → Bool
  | [], _ => true
  | _ :: _, [] => false
  | p :: ps, c :: cs => p == c && charsStart ps cs

/-- Does `pat` occur as a contiguous run inside the list? -/
def infixHas (pat : List Char) : List Char → Bool
  | [] => pat == []
  | c :: rest => charsStart pat (c :: rest) || infixHas pat rest

/-- Python's `pat in s.lower()` for a lowercase literal `pat`. -/
def strHas (s pat : String) : Bool := infixHas pat.toList (lowerChars s)

/-- Declarative (Prop-level) contiguous-substring relation, used on the
specification side of the claims about code classification. -/
def StrSub (pat s : List Char) : Prop := ∃ l r, l ++ pat ++ r = s

/-! ## Block classification (`pathfinding.py` lines 13-103) -/

/-- `_is_passable_block`: leaves without woody/branchy modifiers. -/
def isPassableBlock (code : String) : Bool :=
  if strHas code ("woody") then false
  else if strHas code ("branchy") then false
  else if strHas code ("leaves") then true
  else false

/-- `_has_hidden_collision`: blocks reported non-solid that still collide. -/
def hasHiddenCollision (code : String) : Bool :=
  if strHas code ("fence") then true
  else if strHas code ("door") || strHas code ("gate") then true
  else if strHas code ("chiseled") || strHas code ("microblock") then true
  else if lowerChars code == ("groundstorage").toList then true
  else if strHas code ("storagevessel") || strHas code ("stationarybasket")
      || strHas code ("crate-") || strHas code ("barrel-")
      || strHas code ("shelf-") || strHas code ("toolrack")
      || strHas code ("displaycase") then true
  else if strHas code ("wagonwheel") || strHas code ("wagon-") then true
  else if strHas code ("lantern") && strHas code ("ground") then true
  else if strHas code ("anvil") || strHas code ("forge") || strHas code ("helve")
      || strHas code ("clutch") || strHas code ("pulverizer")
      || strHas code ("quern") || strHas code ("claypot")
      || strHas code ("crucible") then true
  else if strHas code ("bed-") then true
  else if strHas code ("sign-") && strHas code ("post") then true
  else if strHas code ("plankslab") || strHas code ("plankstairs") then true
  else false

/-- The liquid test of `_build_terrain_data` (line 137): water / lava / liquid. -/
def isLiquidCodePF (code : String) : Bool :=
  strHas code ("water") || strHas code ("lava") || strHas code ("liquid")

/-! ## Block samples -/

/-- A block sample after position normalization (both the flat and the
nested `worldPos` wire records carry exactly these fields; `isSolid = none`
models a record without an `isSolid` key). -/
structure Block where
  x : Int
  y : Int
  z : Int
  code : String
  isSolid : Option Bool
deriving DecidableEq

abbrev P3 := Int × Int × Int

def blockPos (b : Block) : P3 := (b.x, b.y, b.z)

/-! ## Association lists standing in for Python dicts -/

def agGet {α : Type} : List ((Int × Int) × α) → (Int × Int) → Option α
  | [], _ => none
  | p :: rest, k => if p.1 = k then some p.2 else agGet rest k

/-- Dict assignment: replace the value at the key (keys are unique in every
dict the source builds) or append a new entry; key order is preserved, as in
a Python dict. -/
def agSet {α : Type} : List ((Int × Int) × α) → (Int × Int) → α → List ((Int × Int) × α)
  | [], k, v => [(k, v)]
  | p :: rest, k, v => if p.1 = k then (k, v) :: rest else p :: agSet rest k v

abbrev HM := List ((Int × Int) × Int)

/-! ## Terrain model builder (`_build_terrain_data`, lines 106-182) -/

/-- The classification loop (lines 127-150): returns the solid set, liquid
set and hidden-collision set, as lists in input order (the Python sets are
only ever queried for membership, and iterated once — see `buildHeightmap`,
whose results are proved independent of that iteration order). -/
def classifyBlocks (bs : List Block) : List P3 × List P3 × List P3 :=
  bs.foldl (fun acc b =>
    if isLiquidCodePF b.code then (acc.1, acc.2.1 ++ [blockPos b], acc.2.2)
    else if (b.isSolid.getD true && !isPassableBlock b.code) || hasHiddenCollision b.code then
      (acc.1 ++ [blockPos b], acc.2.1,
        acc.2.2 ++ (if hasHiddenCollision b.code then [blockPos b] else []))
    else acc) ([], [], [])

/-- One candidate-surface update of the heightmap dict (lines 168-180). -/
def hmUpdateCand (botY : Option Int) (hm : HM) (xz : Int × Int) (y : Int) : HM :=
  match agGet hm xz with
  | none => agSet hm xz y
  | some cur =>
    match botY with
    | some b => if (y - (b - 1)).natAbs < (cur - (b - 1)).natAbs then agSet hm xz y else hm
    | none => if y > cur then agSet hm xz y else hm

/-- The heightmap loop (lines 159-180): fold over the solid set (one fixed
iteration order of the Python set; all proved properties are order-robust). -/
def buildHeightmap (solids hidden : List P3) (botY : Option Int) : HM :=
  solids.foldl (fun hm p =>
    if p ∈ hidden then hm
    else if (p.1, p.2.1 + 1, p.2.2) ∈ solids then hm
    else hmUpdateCand botY hm (p.1, p.2.2) p.2.1) []

/-- `_build_terrain_data`. -/
def buildTerrainData (bs : List Block) (botY : Option Int) : HM × List P3 × List P3 :=
  let c := classifyBlocks bs
  (buildHeightmap c.1 c.2.2 botY, c.1, c.2.1)

/-! ## Body clearance (`_has_body_clearance`, lines 185-247) -/

def adjDirs : List (Int × Int) := [(-1, 0), (1, 0), (0, -1), (0, 1)]

def nbDirs : List (Int × Int) := [(1, 0), (-1, 0), (0, 1), (0, -1)]

def hasBodyClearance (x surfaceY z : Int) (solids : List P3) (hmOpt : Option HM) : Bool :=
  let bodyY := surfaceY + 1
  let headY := surfaceY + 2
  if decide ((x, bodyY, z) ∈ solids) || decide ((x, headY, z) ∈ solids) then false
  else
    match hmOpt with
    | none => true
    | some hm =>
      adjDirs.all (fun d =>
        let ax := x + d.1
        let az := z + d.2
        match agGet hm (ax, az) with
        | some adjS =>
          if adjS > surfaceY + 1 then true
          else
            (decide (bodyY = adjS) || !decide ((ax, bodyY, az) ∈ solids)) &&
            (decide (headY = adjS) || !decide ((ax, headY, az) ∈ solids))
        | none =>
          !decide ((ax, bodyY, az) ∈ solids) && !decide ((ax, headY, az) ∈ solids))

/-! ## Pit-escape check (`_can_escape_pit`, lines 328-399) -/

/-- The inner for-loop over the four directions: returns whether a step-up
escape was found, together with the updated visited set and queue. -/
def escapeScan (hm : HM) (solids liquids : List P3) (cx cz cy : Int) :
    List (Int × Int) → List (Int × Int) → List (Int × Int × Int) →
    Bool × List (Int × Int) × List (Int × Int × Int)
  | [], visited, queue => (false, visited, queue)
  | d :: ds, visited, queue =>
    let nx := cx + d.1
    let nz := cz + d.2
    if (nx, nz) ∈ visited then escapeScan hm solids liquids cx cz cy ds visited queue
    else
      match agGet hm (nx, nz) with
      | none => escapeScan hm solids liquids cx cz cy ds visited queue
      | some ny =>
        if decide ((nx, ny, nz) ∈ liquids) || decide ((nx, ny + 1, nz) ∈ liquids) then
          escapeScan hm solids liquids cx cz cy ds visited queue
        else
          if ny - cy = 1 ∧ hasBodyClearance nx ny nz solids (some hm) = true
              ∧ (cx, cy + 2, cz) ∉ solids then
            (true, visited, queue)
          else
            if (ny - cy ≤ 0 ∧ -1 ≤ ny - cy) ∧ hasBodyClearance nx ny nz solids (some hm) = true then
              escapeScan hm solids liquids cx cz cy ds
                (visited ++ [(nx, nz)]) (queue ++ [(nx, nz, ny)])
            else escapeScan hm solids liquids cx cz cy ds visited queue

/-- The BFS loop; the fuel is `max_search - positions_checked`. -/
def canEscapePitGo (hm : HM) (solids liquids : List P3) :
    Nat → List (Int × Int × Int) → List (Int × Int) → Bool
  | 0, _, _ => false
  | _ + 1, [], _ => false
  | n + 1, c :: rest, visited =>
    match escapeScan hm solids liquids c.1 c.2.1 c.2.2 nbDirs visited rest with
    | (true, _, _) => true
    | (false, visited', queue') => canEscapePitGo hm solids liquids n queue' visited'

/-- `_can_escape_pit`; every call in the source leaves `max_search` at its
default of 16. -/
def canEscapePit (x z surfaceY : Int) (hm : HM) (solids liquids : List P3)
    (maxSearch : Nat) : Bool :=
  canEscapePitGo hm solids liquids maxSearch [(x, z, surfaceY)] [(x, z)]

/-! ## Walkable neighbors (`_get_walkable_neighbors`, lines 250-325) -/

/-- The body of the direction loop, as an `Option`al accepted move
`(nx, nz, ny, cost)`. -/
def checkNeighbor (x z currentY : Int) (hm : HM) (solids liquids : List P3)
    (allow2Drop : Bool) (d : Int × Int) : Option (Int × Int × Int × ℚ) :=
  let nx := x + d.1
  let nz := z + d.2
  match agGet hm (nx, nz) with
  | none => none
  | some ny =>
    if decide ((nx, ny, nz) ∈ liquids) || decide ((nx, ny + 1, nz) ∈ liquids) then none
    else
      let hd := ny - currentY
      if hd > 1 then none
      else
        if hd < -1 ∧ (allow2Drop = false ∨ hd < -2) then none
        else
          if hd < -1 ∧ canEscapePit nx nz ny hm solids liquids 16 = false then none
          else
            if hasBodyClearance nx ny nz solids (some hm) = false then none
            else
              if hd = 1 ∧ (x, currentY + 2, z) ∈ solids then none
              else
                some (nx, nz, ny,
                  if hd < 0 then (if hd = -1 then 11/10 else 13/10) else 1)

def walkableNeighbors (x z currentY : Int) (hm : HM) (solids liquids : List P3)
    (allow2Drop : Bool) : List (Int × Int × Int × ℚ) :=
  nbDirs.filterMap (checkNeighbor x z currentY hm solids liquids allow2Drop)

/-! ## A* search (`_heuristic`, `_find_valid_start`, `_astar`, lines 402-522) -/

/-- `_heuristic`: Manhattan distance. -/
def heuristic (x1 z1 x2 z2 : Int) : ℚ :=
  ((x2 - x1).natAbs : ℚ) + ((z2 - z1).natAbs : ℚ)

def startOffsets : List (Int × Int) :=
  [(0, 0), (1, 0), (-1, 0), (0, 1), (0, -1), (1, 1), (1, -1), (-1, 1), (-1, -1)]

def findValidStartGo (botX botY botZ : Int) (hm : HM) : List (Int × Int) → Option P3
  | [] => none
  | d :: ds =>
    match agGet hm (botX + d.1, botZ + d.2) with
    | none => findValidStartGo botX botY botZ hm ds
    | some s =>
      if (s - botY).natAbs ≤ 2 then some (botX + d.1, s, botZ + d.2)
      else findValidStartGo botX botY botZ hm ds

/-- `_find_valid_start`. -/
def findValidStart (botX botY botZ : Int) (hm : HM) : Option P3 :=
  findValidStartGo botX botY botZ hm startOffsets

/-- One entry of the `heapq` priority queue: `(f_score, counter, x, z, y)`. -/
structure ANode where
  f : ℚ
  counter : Nat
  x : Int
  z : Int
  y : Int
deriving DecidableEq

/-- The `heapq` order on `(f, counter, ...)` tuples; counters are pairwise
distinct, so the comparison never reaches the coordinates. -/
def nodeLe (a b : ANode) : Bool :=
  decide (a.f < b.f) || (decide (a.f = b.f) && decide (a.counter < b.counter))

/-- `heapq.heappop`: remove the least entry. -/
def popMin : List ANode → Option (ANode × List ANode)
  | [] => none
  | a :: rest =>
    let m := rest.foldl (fun best c => if nodeLe c best then c else best) a
    some (m, (a :: rest).erase m)

structure AState where
  openL : List ANode
  cameFrom : List ((Int × Int) × P3)
  gScore : List ((Int × Int) × ℚ)
  fScore : List ((Int × Int) × ℚ)
  counter : Nat

/-- The neighbor-relaxation step of the A* loop (lines 510-520). -/
def relaxNeighbor (goal : Int × Int) (cx cy cz : Int) (st : AState)
    (nb : Int × Int × Int × ℚ) : AState :=
  let nx := nb.1
  let nz := nb.2.1
  let ny := nb.2.2.1
  let cost := nb.2.2.2
  -- `g_score[current]` always exists: every queued node had its g-score set
  -- when it was pushed (the Python indexes the dict directly).
  let tentative := ((agGet st.gScore (cx, cz)).getD 0) + cost
  let doUpdate : Bool :=
    match agGet st.gScore (nx, nz) with
    | none => true
    | some g => decide (tentative < g)
  if doUpdate then
    { openL := st.openL ++ [⟨tentative + heuristic nx nz goal.1 goal.2, st.counter + 1, nx, nz, ny⟩]
      cameFrom := agSet st.cameFrom (nx, nz) (cx, cy, cz)
      gScore := agSet st.gScore (nx, nz) tentative
      fScore := agSet st.fScore (nx, nz) (tentative + heuristic nx nz goal.1 goal.2)
      counter := st.counter + 1 }
  else st

/-- Path reconstruction (lines 497-504), building the reversed list directly;
the came-from chain is acyclic and visits distinct keys, so fuel
`cameFrom.length + 1` always suffices (mirroring the Python `while`). -/
def reconstruct (cf : List ((Int × Int) × P3)) : Nat → (Int × Int) → List P3 → List P3
  | 0, _, acc => acc
  | n + 1, cur, acc =>
    match agGet cf cur with
    | none => acc
    | some p => reconstruct cf n (p.1, p.2.2) (p :: acc)

/-- The A* `while open_set` loop with explicit fuel. -/
def astarGo (goal : Int × Int) (hm : HM) (solids liquids : List P3) (allow2Drop : Bool) :
    Nat → AState → Option (List P3)
  | 0, _ => none
  | n + 1, st =>
    match popMin st.openL with
    | none => none
    | some (nd, rest) =>
      if (nd.x, nd.z) = goal then
        some (reconstruct st.cameFrom (st.cameFrom.length + 1) (nd.x, nd.z)
          [(nd.x, nd.y, nd.z)])
      else
        astarGo goal hm solids liquids allow2Drop n
          ((walkableNeighbors nd.x nd.z nd.y hm solids liquids allow2Drop).foldl
            (relaxNeighbor goal nd.x nd.y nd.z) { st with openL := rest })

/-- `_astar`. -/
def astar (fuel : Nat) (start : P3) (goal : Int × Int) (hm : HM)
    (solids liquids : List P3) (allow2Drop : Bool) : Option (List P3) :=
  match findValidStart start.1 start.2.1 start.2.2 hm with
  | none => none
  | some s =>
    astarGo goal hm solids liquids allow2Drop fuel
      { openL := [⟨0, 0, s.1, s.2.2, s.2.1⟩]
        cameFrom := []
        gScore := [((s.1, s.2.2), 0)]
        fScore := [((s.1, s.2.2), heuristic s.1 s.2.2 goal.1 goal.2)]
        counter := 0 }

/-! ## Edge goal (`_find_edge_goal`, lines 525-565) -/

/-- Integer form of `_find_edge_goal`'s projection score: the Python scores
by projection onto the normalized direction, `px*dx/dist + pz*dz/dist`;
dividing by the fixed positive `dist` preserves every comparison, so the
embedding uses the exact integer dot product `px*dx + pz*dz`. -/
def edgeSc (s t k : Int × Int) : Int :=
  (k.1 - s.1) * (t.1 - s.1) + (k.2 - s.2) * (t.2 - s.2)

/-- The best-scoring key scan of `_find_edge_goal` (strict improvement, so
the first key attaining the maximum wins, as in the Python iteration). -/
def edgeScan (s t : Int × Int) (l : HM) : Option ((Int × Int) × Int) :=
  l.foldl (fun best p =>
    match best with
    | none => some (p.1, edgeSc s t p.1)
    | some b => if edgeSc s t p.1 > b.2 then some (p.1, edgeSc s t p.1) else some b) none

/-- `_find_edge_goal` (`scanRadius` is accepted and unused, as in the source;
`dist == 0` is exactly both direction components vanishing). -/
def findEdgeGoal (s t : Int × Int) (hm : HM) (scanRadius : Int) : Option (Int × Int) :=
  if hm = [] then none
  else if t.1 - s.1 = 0 ∧ t.2 - s.2 = 0 then some s
  else (edgeScan s t hm).map (fun b => b.1)

/-! ## `find_safe_path` (lines 568-741) -/

structure PosQ where
  x : ℚ
  y : ℚ
  z : ℚ
deriving DecidableEq

/-- `find_safe_path`'s result. `distSqToTarget` carries the squared
horizontal distance, an integer (the source stores the float square root;
no claim depends on more than the value's identity under that strictly
monotone map), with `none` standing for the source's `float('inf')`. -/
structure PathResult where
  success : Bool
  waypoints : List P3
  reachedTarget : Bool
  distSqToTarget : Option Int
  reason : String
deriving DecidableEq

def fspStart (cp : PosQ) : P3 := (cp.x.floor, cp.y.floor, cp.z.floor)

def fspTargetXZ (tp : PosQ) : Int × Int := (tp.x.floor, tp.z.floor)

/-- Terrain model of a call: heightmap (built with the floored current `y`
as reference elevation), solid set, liquid set. -/
def fspTerrain (cp : PosQ) (blocks : List Block) : HM × List P3 × List P3 :=
  buildTerrainData blocks (some cp.y.floor)

/-- Goal resolution: the literal target column if scanned, else the edge
goal. -/
def fspGoal (cp tp : PosQ) (blocks : List Block) (scanRadius : Int) : Option (Int × Int) :=
  let hm := (fspTerrain cp blocks).1
  let t := fspTargetXZ tp
  if (agGet hm t).isSome then some t
  else findEdgeGoal (cp.x.floor, cp.z.floor) t hm scanRadius

/-- First search phase: reversible moves only. -/
def fspPhase1 (fuel : Nat) (cp tp : PosQ) (blocks : List Block) (scanRadius : Int) :
    Option (List P3) :=
  match fspGoal cp tp blocks scanRadius with
  | none => none
  | some g =>
    astar fuel (fspStart cp) g (fspTerrain cp blocks).1
      (fspTerrain cp blocks).2.1 (fspTerrain cp blocks).2.2 false

/-- Second search phase: 2-block drops allowed. -/
def fspPhase2 (fuel : Nat) (cp tp : PosQ) (blocks : List Block) (scanRadius : Int) :
    Option (List P3) :=
  match fspGoal cp tp blocks scanRadius with
  | none => none
  | some g =>
    astar fuel (fspStart cp) g (fspTerrain cp blocks).1
      (fspTerrain cp blocks).2.1 (fspTerrain cp blocks).2.2 true

/-- The two-phase composition (lines 642-648): the second search runs only
when the first finds no path. -/
def fspPath (fuel : Nat) (cp tp : PosQ) (blocks : List Block) (scanRadius : Int) :
    Option (List P3) :=
  match fspPhase1 fuel cp tp blocks scanRadius with
  | some p => some p
  | none => fspPhase2 fuel cp tp blocks scanRadius

/-- `find_safe_path`. The failure branch after an exhausted search builds a
long diagnostic string in the source (lines 650-711); no verified claim
depends on the reason text, so it is abbreviated to a constant here. -/
def findSafePath (fuel : Nat) (cp tp : PosQ) (blocks : List Block) (scanRadius : Int) :
    PathResult :=
  if blocks = [] then ⟨false, [], false, none, "No block data provided"⟩
  else
    let hm := (fspTerrain cp blocks).1
    if hm = [] then ⟨false, [], false, none, "No walkable surfaces found in block data"⟩
    else
      match fspGoal cp tp blocks scanRadius with
      | none => ⟨false, [], false, none, "Cannot determine path toward target"⟩
      | some goalXZ =>
        match fspPath fuel cp tp blocks scanRadius with
        | none =>
          ⟨false, [], false,
            some (((fspTargetXZ tp).1 - cp.x.floor) * ((fspTargetXZ tp).1 - cp.x.floor)
              + ((fspTargetXZ tp).2 - cp.z.floor) * ((fspTargetXZ tp).2 - cp.z.floor)),
            "No safe path found"⟩
        | some path =>
          let fin := path.getLastD (0, 0, 0)
          ⟨true, path.map (fun p => (p.1, p.2.1 + 1, p.2.2)),
            (agGet hm (fspTargetXZ tp)).isSome && decide (goalXZ = fspTargetXZ tp)
              && decide (0 < path.length),
            some (((fspTargetXZ tp).1 - fin.1) * ((fspTargetXZ tp).1 - fin.1)
              + ((fspTargetXZ tp).2 - fin.2.2) * ((fspTargetXZ tp).2 - fin.2.2)),
            ""⟩

/-! ## Block normalization for the visibility filter
(`BlockInfo.from_dict`, `types.py` lines 49-83) -/

structure BlockInfo where
  x : Int
  y : Int
  z : Int
  code : String
  isSolid : Bool
  isLiquid : Bool
deriving DecidableEq

/-- `BlockInfo.from_dict`. Note: its liquid test covers only water/liquid,
not lava, unlike `_build_terrain_data`'s. -/
def fromDict (b : Block) : BlockInfo :=
  let isAir := b.code = "air" || b.code = "" || strHas b.code ("air")
  let isLiq := strHas b.code ("water") || strHas b.code ("liquid")
  let isSol :=
    match b.isSolid with
    | some s => s
    | none => !isAir && !isLiq
  ⟨b.x, b.y, b.z, b.code, isSol, isLiq⟩

def infoPos (i : BlockInfo) : P3 := (i.x, i.y, i.z)

/-! ## Voxel ray traversal (`_voxel_traversal`, `visibility.py` lines 23-122)

The source works with the float ray parameter `t` measured in distance
units; every `t`-quantity is the exact rational value below times the fixed
positive ray length `dist`, and every comparison the loop makes
(`t_max_x < t_max_y`, `traveled < distance`, `traveled > 0`) is invariant
under that rescaling, so the embedding stores the exact `t / dist`
quantities in `WithTop ℚ` (`⊤` for the source's `float('inf')` on a zero
direction component) and compares `traveled` against `1`. -/

structure Vecq where
  x : ℚ
  y : ℚ
  z : ℚ
deriving DecidableEq

structure TravState where
  cx : Int
  cy : Int
  cz : Int
  sx : Int
  sy : Int
  sz : Int
  tmx : WithTop ℚ
  tmy : WithTop ℚ
  tmz : WithTop ℚ
  tdx : WithTop ℚ
  tdy : WithTop ℚ
  tdz : WithTop ℚ
  traveled : WithTop ℚ
deriving DecidableEq

def cellOf (s : TravState) : P3 := (s.cx, s.cy, s.cz)

/-- Per-axis initialization (step direction, first boundary crossing, and
crossing increment, both as fractions of the ray length). -/
def axisInit (o delta : ℚ) : Int × WithTop ℚ × WithTop ℚ :=
  if delta = 0 then (0, ⊤, ⊤)
  else
    ((if delta > 0 then 1 else -1),
     (((if delta > 0 then ((o.floor : ℚ) + 1 - o) / delta
        else (o - (o.floor : ℚ)) / (-delta)) : ℚ) : WithTop ℚ),
     ((1 / |delta| : ℚ) : WithTop ℚ))

/-- One grid step of Amanatides & Woo (lines 103-120). -/
def travStep (s : TravState) : TravState :=
  if s.tmx < s.tmy then
    if s.tmx < s.tmz then
      { s with traveled := s.tmx, tmx := s.tmx + s.tdx, cx := s.cx + s.sx }
    else
      { s with traveled := s.tmz, tmz := s.tmz + s.tdz, cz := s.cz + s.sz }
  else
    if s.tmy < s.tmz then
      { s with traveled := s.tmy, tmy := s.tmy + s.tdy, cy := s.cy + s.sy }
    else
      { s with traveled := s.tmz, tmz := s.tmz + s.tdz, cz := s.cz + s.sz }

/-- The `while traveled < distance` loop (lines 96-122). The fallback at
fuel exhaustion is the loop-exit check; `travFuelOf` always exceeds the
number of iterations the loop can make. -/
def travGo (target : P3) (solids : List P3) : Nat → TravState → Bool
  | 0, s => decide (cellOf s = target)
  | n + 1, s =>
    if s.traveled < (1 : WithTop ℚ) then
      if cellOf s = target then true
      else
        if (0 : WithTop ℚ) < s.traveled ∧ cellOf s ∈ solids then false
        else travGo target solids n (travStep s)
    else decide (cellOf s = target)

def travInit (origin : Vecq) (targetBlock : P3) : TravState :=
  let dx := (targetBlock.1 : ℚ) + 1/2 - origin.x
  let dy := (targetBlock.2.1 : ℚ) + 1/2 - origin.y
  let dz := (targetBlock.2.2 : ℚ) + 1/2 - origin.z
  let ax := axisInit origin.x dx
  let ay := axisInit origin.y dy
  let az := axisInit origin.z dz
  ⟨origin.x.floor, origin.y.floor, origin.z.floor,
    ax.1, ay.1, az.1, ax.2.1, ay.2.1, az.2.1, ax.2.2, ay.2.2, az.2.2, (0 : ℚ)⟩

/-- Squared length of the eye-to-target-center ray. -/
def distSqOf (origin : Vecq) (targetBlock : P3) : ℚ :=
  ((targetBlock.1 : ℚ) + 1/2 - origin.x) ^ 2
    + ((targetBlock.2.1 : ℚ) + 1/2 - origin.y) ^ 2
    + ((targetBlock.2.2 : ℚ) + 1/2 - origin.z) ^ 2

/-- Fuel bound: while `traveled < 1` each axis can be stepped at most
`⌈|delta|⌉ + 1` times, so the loop always exits within this fuel. -/
def travFuelOf (origin : Vecq) (targetBlock : P3) : Nat :=
  ((⌈|(targetBlock.1 : ℚ) + 1/2 - origin.x|⌉
    + ⌈|(targetBlock.2.1 : ℚ) + 1/2 - origin.y|⌉
    + ⌈|(targetBlock.2.2 : ℚ) + 1/2 - origin.z|⌉).toNat) + 8

/-- `_voxel_traversal`; `maxDistSq` is the squared `max_distance` (the
source compares the two lengths, equivalent to comparing their squares). -/
def voxelTraversal (origin : Vecq) (targetBlock : P3) (solids : List P3)
    (maxDistSq : ℚ) : Bool :=
  if distSqOf origin targetBlock = 0 then true
  else
    if distSqOf origin targetBlock > maxDistSq then false
    else travGo targetBlock solids (travFuelOf origin targetBlock) (travInit origin targetBlock)

/-! ## Visibility filters (`filter_visible_blocks`,
`get_visible_surface_blocks`, lines 125-258) -/

/-- The solid set a block list induces via `BlockInfo.from_dict` (built this
same way in both visibility functions). -/
def visSolids (blocks : List Block) : List P3 :=
  blocks.filterMap (fun b => if (fromDict b).isSolid then some (infoPos (fromDict b)) else none)

/-- The squared `max_distance` scan (lines 161-166). -/
def visMaxDistSq (eye : Vecq) (blocks : List Block) : ℚ :=
  blocks.foldl (fun m b =>
    let i := fromDict b
    if distSqOf eye (infoPos i) > m then distSqOf eye (infoPos i) else m) 0

/-- The per-block keep test of `filter_visible_blocks` (lines 170-181):
unsupported loose blocks are dropped, then the ray is cast. -/
def visKeep (eye : Vecq) (solids : List P3) (maxDistSq : ℚ) (b : Block) : Bool :=
  let i := fromDict b
  (if !i.isSolid && !i.isLiquid then decide ((i.x, i.y - 1, i.z) ∈ solids) else true)
    && voxelTraversal eye (infoPos i) solids maxDistSq

/-- `filter_visible_blocks`. -/
def filterVisibleBlocks (observerPos : Vecq) (blocks : List Block) (eyeHeight : ℚ) :
    List Block :=
  let eye : Vecq := ⟨observerPos.x, observerPos.y + eyeHeight, observerPos.z⟩
  blocks.filter (visKeep eye (visSolids blocks) (visMaxDistSq eye blocks))

def nbOffsets : List P3 :=
  [(1, 0, 0), (-1, 0, 0), (0, 1, 0), (0, -1, 0), (0, 0, 1), (0, 0, -1)]

/-- The exposure test of `get_visible_surface_blocks` (lines 231-256). -/
def surfaceKeep (solids : List P3) (includeLiquids : Bool) (b : Block) : Bool :=
  let i := fromDict b
  if i.isLiquid then includeLiquids
  else
    if !i.isSolid then true
    else nbOffsets.any (fun d => !decide ((i.x + d.1, i.y + d.2.1, i.z + d.2.2) ∈ solids))

/-- `get_visible_surface_blocks`. -/
def getVisibleSurfaceBlocks (observerPos : Vecq) (blocks : List Block) (eyeHeight : ℚ)
    (includeLiquids : Bool) : List Block :=
  (filterVisibleBlocks observerPos blocks eyeHeight).filter
    (surfaceKeep (visSolids blocks) includeLiquids)

/-! ## Specification-side predicates -/

/-- A path node carries exactly its column's heightmap surface. -/
def pOk (hm : HM) (p : P3) : Prop := agGet hm (p.1, p.2.2) = some p.2.1

/-- `b` is an accepted neighbor move from `a` (at some cost). -/
def stepOk (hm : HM) (solids liquids : List P3) (allow2Drop : Bool) (a b : P3) : Prop :=
  ∃ c, (b.1, b.2.2, b.2.1, c) ∈ walkableNeighbors a.1 a.2.2 a.2.1 hm solids liquids allow2Drop

/-- Invariant of the `came_from` dict: every stored predecessor is a
heightmap node and the recorded edge is an accepted neighbor move. -/
def cfOk (hm : HM) (solids liquids : List P3) (allow2Drop : Bool)
    (cf : List ((Int × Int) × P3)) : Prop :=
  ∀ k v, agGet cf k = some v →
    pOk hm v ∧ ∃ y, agGet hm k = some y ∧ stepOk hm solids liquids allow2Drop v (k.1, y, k.2)

/-- Invariant of the open set: every queued entry carries its column's
heightmap surface. -/
def openOk (hm : HM) (l : List ANode) : Prop :=
  ∀ nd ∈ l, agGet hm (nd.x, nd.z) = some nd.y

/-- Surface candidacy per the spec: in the solid set, not hidden-collision,
and the cell directly above not in the solid set. -/
def isCand (solids hidden : List P3) (p : P3) : Prop :=
  p ∈ solids ∧ p ∉ hidden ∧ (p.1, p.2.1 + 1, p.2.2) ∉ solids

/-- Surface-node to waypoint conversion (line 725): stand at surface + 1. -/
def wpShift (p : P3) : P3 := (p.1, p.2.1 + 1, p.2.2)

/-! ## Concrete example worlds -/

/-- Two flat columns side by side. -/
def exFlat : List Block := [⟨0, 10, 0, "rock", some true⟩, ⟨1, 10, 0, "rock", some true⟩]

/-- A corridor that forces two separate 2-block drops, each with a step-up
escape column beside its landing. -/
def exTwoDrops : List Block :=
  [⟨0, 10, 0, "rock", some true⟩, ⟨1, 8, 0, "rock", some true⟩,
   ⟨2, 8, 0, "rock", some true⟩, ⟨3, 6, 0, "rock", some true⟩,
   ⟨1, 9, 1, "rock", some true⟩, ⟨3, 7, 1, "rock", some true⟩]

/-- Heightmap with two flat columns, for calling the neighbor filter
directly. -/
def exHmFlat : HM := [((0, 0), 5), ((1, 0), 5)]

/-- A liquid cell exactly at the neighbor column's head level (surface+2). -/
def exLiqHead : List P3 := [(1, 7, 0)]

/-- One faraway column; the start/target column (0,0) is not scanned. -/
def exFarColumn : List Block := [⟨2, 10, 3, "rock", some true⟩]

/-- A passable leaf block between the eye and a rock. -/
def exLeafWall : List Block :=
  [⟨2, 1, 0, "leaves-oak", some true⟩, ⟨4, 1, 0, "rock", some true⟩]

/-- One column with two candidate surfaces (a floor and an overhang). -/
def exTwoSurfaces : List Block := [⟨0, 5, 0, "rock", some true⟩, ⟨0, 9, 0, "rock", some true⟩]

/-! # Lemmas -/

/-! ## Association lists -/

theorem agGet_agSet {α : Type} (l : List ((Int × Int) × α)) (k k' : Int × Int) (v : α) :
    agGet (agSet l k v) k' = if k' = k then some v else agGet l k' := by
  induction l with
  | nil =>
    by_cases h : k' = k
    · simp [agSet, agGet, h]
    · have h' : ¬ k = k' := fun he => h he.symm
      simp [agSet, agGet, h, h']
  | cons p rest ih =>
    by_cases hp : p.1 = k
    · by_cases h : k' = k
      · simp [agSet, agGet, hp, h]
      · have h1 : ¬ k = k' := fun he => h he.symm
        have h2 : ¬ p.1 = k' := fun he => h (he.symm.trans hp)
        simp [agSet, agGet, hp, h, h1, h2]
    · by_cases hpk : p.1 = k'
      · have h : ¬ k' = k := fun he => hp (hpk.trans he)
        simp [agSet, agGet, hp, hpk, h]
      · simp [agSet, agGet, hp, hpk, ih]

/-! ## Substring search agrees with the declarative substring relation -/

theorem charsStart_iff (p s : List Char) : charsStart p s = true ↔ ∃ r, p ++ r = s := by
  induction p generalizing s with
  | nil => simp [charsStart]
  | cons c cs ih =>
    cases s with
    | nil => simp [charsStart]
    | cons d ds =>
      simp only [charsStart, Bool.and_eq_true, beq_iff_eq, ih]
      constructor
      · rintro ⟨rfl, r, rfl⟩
        exact ⟨r, rfl⟩
      · rintro ⟨r, h⟩
        injection h with h1 h2
        exact ⟨h1, r, h2⟩

theorem infixHas_iff (p s : List Char) : infixHas p s = true ↔ StrSub p s := by
  induction s with
  | nil =>
    simp only [infixHas, beq_iff_eq, StrSub]
    constructor
    · rintro rfl
      exact ⟨[], [], rfl⟩
    · rintro ⟨l, r, h⟩
      have := List.append_eq_nil.mp ((List.append_assoc l p r) ▸ h)
      exact (List.append_eq_nil.mp this.2).1
  | cons c rest ih =>
    simp only [infixHas, Bool.or_eq_true, charsStart_iff, ih, StrSub]
    constructor
    · rintro (⟨r, h⟩ | ⟨l, r, h⟩)
      · exact ⟨[], r, by simpa using h⟩
      · exact ⟨c :: l, r, by simp [h]⟩
    · rintro ⟨l, r, h⟩
      cases l with
      | nil => exact Or.inl ⟨r, by simpa using h⟩
      | cons d ds =>
        injection h with h1 h2
        exact Or.inr ⟨ds, r, h2⟩

theorem strHas_iff (s pat : String) : strHas s pat = true ↔ StrSub pat.toList (lowerChars s) :=
  infixHas_iff _ _

/-! ## Claim C6 -/

/-- C6 (corrected): the claim that both ingestion paths derive the same
liquid flag is false; `"lava"` separates them. `_build_terrain_data`
reports liquid for a bare lava block, `BlockInfo.from_dict` does not. -/
theorem C6_counterexample :
    isLiquidCodePF "lava" = true
      ∧ (fromDict ⟨0, 0, 0, "lava", some false⟩).isLiquid = false := by
  constructor <;> rfl

/-- C6 (amended): the terrain builder's derived liquid flag is true exactly
when the lower-cased code contains water, lava or liquid as a substring; the
visibility normalizer's flag is true exactly when it contains water or
liquid (lava is absent from its test); the two ingestion paths agree on
precisely the codes that do not contain lava without water/liquid. -/
theorem C6_liquid_flag (b : Block) :
    (isLiquidCodePF b.code = true ↔
      StrSub ("water").toList (lowerChars b.code)
        ∨ StrSub ("lava").toList (lowerChars b.code)
        ∨ StrSub ("liquid").toList (lowerChars b.code))
    ∧ ((fromDict b).isLiquid = true ↔
      StrSub ("water").toList (lowerChars b.code)
        ∨ StrSub ("liquid").toList (lowerChars b.code))
    ∧ (¬ isLiquidCodePF b.code = (fromDict b).isLiquid ↔
      StrSub ("lava").toList (lowerChars b.code)
        ∧ ¬ StrSub ("water").toList (lowerChars b.code)
        ∧ ¬ StrSub ("liquid").toList (lowerChars b.code)) := by
  have hw := strHas_iff b.code "water"
  have hl := strHas_iff b.code "lava"
  have hq := strHas_iff b.code "liquid"
  cases hbw : strHas b.code ("water") <;> cases hbl : strHas b.code ("lava") <;>
    cases hbq : strHas b.code ("liquid") <;>
      simp_all [isLiquidCodePF, fromDict]

/-! ## Claims C9 and C10 -/

theorem fromDict_pos (b : Block) : infoPos (fromDict b) = (b.x, b.y, b.z) := rfl

theorem fromDict_isSolid_iff (b : Block) :
    (fromDict b).isSolid = true ↔
      (match b.isSolid with
       | some s => s = true
       | none =>
         ¬(b.code = "air" ∨ b.code = "" ∨ StrSub ("air").toList (lowerChars b.code))
           ∧ ¬(StrSub ("water").toList (lowerChars b.code)
               ∨ StrSub ("liquid").toList (lowerChars b.code))) := by
  cases hbs : b.isSolid with
  | some s => simp [fromDict, hbs]
  | none =>
    simp only [fromDict, hbs]
    rw [← strHas_iff, ← strHas_iff, ← strHas_iff]
    cases ha1 : decide (b.code = "air") <;> cases ha2 : decide (b.code = "") <;>
      cases ha3 : strHas b.code ("air") <;> cases hw : strHas b.code ("water") <;>
        cases hq : strHas b.code ("liquid") <;> simp_all

/-- C9 (confirmed): a block that passed the occlusion filter is kept by the
surface filter iff it is liquid and liquids are included, or non-solid, or
solid with some axis neighbor absent from the solid set; fully enclosed
solid blocks are dropped; and both filters preserve input order
(sublist of the occlusion output, itself a sublist of the input). -/
theorem C9_exposure_filter (obs : Vecq) (blocks : List Block) (eyeH : ℚ) (inc : Bool)
    (b : Block) :
    (b ∈ getVisibleSurfaceBlocks obs blocks eyeH inc ↔
      b ∈ filterVisibleBlocks obs blocks eyeH ∧
        (if (fromDict b).isLiquid = true then inc = true
         else if (fromDict b).isSolid = true then
           ∃ d ∈ nbOffsets,
             ((fromDict b).x + d.1, (fromDict b).y + d.2.1, (fromDict b).z + d.2.2)
               ∉ visSolids blocks
         else True))
    ∧ (getVisibleSurfaceBlocks obs blocks eyeH inc).Sublist (filterVisibleBlocks obs blocks eyeH)
    ∧ (filterVisibleBlocks obs blocks eyeH).Sublist blocks := by
  refine ⟨?_, List.filter_sublist _, List.filter_sublist _⟩
  rw [getVisibleSurfaceBlocks, List.mem_filter]
  cases hLiq : (fromDict b).isLiquid <;> cases hSol : (fromDict b).isSolid <;>
    simp [surfaceKeep, hLiq, hSol, List.any_eq_true]

/-- C10 (confirmed): the visibility filter's solid set holds exactly the
positions of samples whose `isSolid` flag is true, or — when the flag is
absent — whose code is neither air-like nor water/liquid; the planner's
passable-leaf rule is never applied there, so a leaf block reported solid
occludes a ray to a rock behind it even though the path planner excludes
the same leaf from its solid set. -/
theorem C10_visibility_solid_set :
    (∀ (blocks : List Block) (p : P3), p ∈ visSolids blocks ↔
      ∃ b ∈ blocks, (b.x, b.y, b.z) = p ∧
        (match b.isSolid with
         | some s => s = true
         | none =>
           ¬(b.code = "air" ∨ b.code = "" ∨ StrSub ("air").toList (lowerChars b.code))
             ∧ ¬(StrSub ("water").toList (lowerChars b.code)
                 ∨ StrSub ("liquid").toList (lowerChars b.code))))
    ∧ ((fromDict ⟨2, 1, 0, "leaves-oak", some true⟩).isSolid = true
       ∧ isPassableBlock "leaves-oak" = true
       ∧ (⟨4, 1, 0, "rock", some true⟩ : Block) ∈ exLeafWall
       ∧ (⟨4, 1, 0, "rock", some true⟩ : Block)
           ∉ filterVisibleBlocks ⟨1/2, 0, 1/2⟩ exLeafWall (3/2)
       ∧ (2, 1, 0) ∈ visSolids exLeafWall
       ∧ (2, 1, 0) ∉ (buildTerrainData exLeafWall (some 0)).2.1) := by
  constructor
  · intro blocks p
    simp only [visSolids, List.mem_filterMap]
    constructor
    · rintro ⟨b, hb, hf⟩
      cases hsol : (fromDict b).isSolid <;> rw [hsol] at hf
      · simp at hf
      · have hf' : infoPos (fromDict b) = p := by simpa using hf
        exact ⟨b, hb, by rw [← hf', fromDict_pos], (fromDict_isSolid_iff b).mp hsol⟩
    · rintro ⟨b, hb, hpos, hcond⟩
      refine ⟨b, hb, ?_⟩
      rw [(fromDict_isSolid_iff b).mpr hcond]
      simp [fromDict_pos, hpos]
  · refine ⟨rfl, rfl, by decide, by decide, by decide, by decide⟩

/-! ## Claim C2 -/

/-- What `_has_body_clearance` guarantees when it passes (with a heightmap,
as every planner call passes one). -/
theorem hasBodyClearance_spec {x sy z : Int} {solids : List P3} {hm : HM}
    (h : hasBodyClearance x sy z solids (some hm) = true) :
    (x, sy + 1, z) ∉ solids ∧ (x, sy + 2, z) ∉ solids
      ∧ ∀ d ∈ adjDirs,
        (∀ adjS, agGet hm (x + d.1, z + d.2) = some adjS → adjS ≤ sy + 1 →
          (sy + 1 = adjS ∨ (x + d.1, sy + 1, z + d.2) ∉ solids)
            ∧ (sy + 2 = adjS ∨ (x + d.1, sy + 2, z + d.2) ∉ solids))
        ∧ (agGet hm (x + d.1, z + d.2) = none →
          (x + d.1, sy + 1, z + d.2) ∉ solids ∧ (x + d.1, sy + 2, z + d.2) ∉ solids) := by
  rw [hasBodyClearance] at h
  split_ifs at h with hbh
  simp only [Bool.or_eq_true, decide_eq_true_eq, not_or] at hbh
  simp only [List.all_eq_true] at h
  refine ⟨hbh.1, hbh.2, ?_⟩
  intro d hd
  have hd' := h d hd
  constructor
  · intro adjS hadj hle
    rw [hadj] at hd'
    simp only at hd'
    split_ifs at hd' with hgt
    · omega
    · simp only [Bool.and_eq_true, Bool.or_eq_true, decide_eq_true_eq,
        Bool.not_eq_true', decide_eq_false_iff_not] at hd'
      exact ⟨hd'.1, hd'.2⟩
  · intro hadj
    rw [hadj] at hd'
    simp only [Bool.and_eq_true, Bool.not_eq_true', decide_eq_false_iff_not] at hd'
    exact hd'

/-- Inversion of one direction check of `_get_walkable_neighbors`: every
condition an accepted move passed. -/
theorem checkNeighbor_some {x z cy : Int} {hm : HM} {solids liquids : List P3}
    {allow2Drop : Bool} {d : Int × Int} {nx nz ny : Int} {c : ℚ}
    (h : checkNeighbor x z cy hm solids liquids allow2Drop d = some (nx, nz, ny, c)) :
    nx = x + d.1 ∧ nz = z + d.2 ∧ agGet hm (nx, nz) = some ny
      ∧ (nx, ny, nz) ∉ liquids ∧ (nx, ny + 1, nz) ∉ liquids
      ∧ ny - cy ≤ 1 ∧ -2 ≤ ny - cy
      ∧ (allow2Drop = false → -1 ≤ ny - cy)
      ∧ (ny - cy < -1 → canEscapePit nx nz ny hm solids liquids 16 = true)
      ∧ hasBodyClearance nx ny nz solids (some hm) = true
      ∧ (ny - cy = 1 → (x, cy + 2, z) ∉ solids) := by
  rw [checkNeighbor] at h
  cases hg : agGet hm (x + d.1, z + d.2) with
  | none => rw [hg] at h; exact Option.noConfusion h
  | some ny' =>
    rw [hg] at h
    simp only [Bool.or_eq_true, decide_eq_true_eq] at h
    split_ifs at h with h1 h2 h3 h4 h5 h6 h7 h8
    all_goals try exact Option.noConfusion h
    all_goals
      simp only [Option.some.injEq, Prod.mk.injEq] at h
      obtain ⟨rfl, rfl, rfl, -⟩ := h
      push_neg at h1
      refine ⟨rfl, rfl, hg, h1.1, h1.2, by omega, ?_, ?_, ?_, ?_, ?_⟩
      · by_contra hcon
        exact h3 ⟨by omega, Or.inr (by omega)⟩
      · intro hfalse
        by_contra hcon
        exact h3 ⟨by omega, Or.inl hfalse⟩
      · intro hdrop
        by_cases hesc : canEscapePit (x + d.1) (z + d.2) ny' hm solids liquids 16 = true
        · exact hesc
        · exact absurd ⟨hdrop, by simpa using hesc⟩ h4
      · by_cases hbc : hasBodyClearance (x + d.1) ny' (z + d.2) solids (some hm) = true
        · exact hbc
        · exact absurd (by simpa using hbc) h5
      · intro hup
        by_contra hcon
        exact h6 ⟨hup, hcon⟩

/-- C2 (amended): an accepted neighbor step guarantees: no liquid at the
neighbor's surface or body cell (the head cell is not liquid-checked); no
solid at the neighbor's body or head cell; for each adjacent column of the
neighbor — only solids are checked there — if the column is unscanned its
body- and head-level cells are solid-free, and if its surface is at most one
above the neighbor's, each of its body- and head-level cells is solid-free
unless that cell is exactly the column's own surface; and a step-up requires
the departure column's surface+2 cell to be solid-free. -/
theorem C2_neighbor_clearance {hm : HM} {solids liquids : List P3} {allow2Drop : Bool}
    {x z cy nx nz ny : Int} {c : ℚ}
    (h : (nx, nz, ny, c) ∈ walkableNeighbors x z cy hm solids liquids allow2Drop) :
    agGet hm (nx, nz) = some ny
      ∧ (nx, ny, nz) ∉ liquids ∧ (nx, ny + 1, nz) ∉ liquids
      ∧ (nx, ny + 1, nz) ∉ solids ∧ (nx, ny + 2, nz) ∉ solids
      ∧ (∀ d ∈ adjDirs,
          (∀ adjS, agGet hm (nx + d.1, nz + d.2) = some adjS → adjS ≤ ny + 1 →
            (ny + 1 = adjS ∨ (nx + d.1, ny + 1, nz + d.2) ∉ solids)
              ∧ (ny + 2 = adjS ∨ (nx + d.1, ny + 2, nz + d.2) ∉ solids))
          ∧ (agGet hm (nx + d.1, nz + d.2) = none →
            (nx + d.1, ny + 1, nz + d.2) ∉ solids ∧ (nx + d.1, ny + 2, nz + d.2) ∉ solids))
      ∧ (ny - cy = 1 → (x, cy + 2, z) ∉ solids) := by
  obtain ⟨d, -, hc⟩ := List.mem_filterMap.mp h
  obtain ⟨-, -, hhm, hl1, hl2, -, -, -, -, hbc, hup⟩ := checkNeighbor_some hc
  obtain ⟨hb1, hb2, hadj⟩ := hasBodyClearance_spec hbc
  exact ⟨hhm, hl1, hl2, hb1, hb2, hadj, hup⟩

/-- C2 counterexample: the claim as stated requires the neighbor's head cell
(surface+2) to be non-liquid, but the code never liquid-checks that cell:
with a liquid at (1,7,0) — head level for surface 5 — the step is accepted. -/
theorem C2_counterexample :
    (1, 0, 5, (1 : ℚ)) ∈ walkableNeighbors 0 0 5 exHmFlat [] exLiqHead false
      ∧ (1, 5 + 2, 0) ∈ exLiqHead := by
  constructor <;> decide

theorem C2_neighbor_clearance_witness :
    ((1, 0, 5, (1 : ℚ)) ∈ walkableNeighbors 0 0 5 exHmFlat [] exLiqHead false)
      ∧ agGet exHmFlat (1, 0) = some 5 ∧ ((1 : Int), 6, (0 : Int)) ∉ ([] : List P3) := by
  have hmem : (1, 0, 5, (1 : ℚ)) ∈ walkableNeighbors 0 0 5 exHmFlat [] exLiqHead false := by
    decide
  exact ⟨hmem, (C2_neighbor_clearance hmem).1, (C2_neighbor_clearance hmem).2.2.2.1⟩

/-! ## Claim C5 -/

theorem hmUpdateCand_get_other {botY : Option Int} {hm : HM} {xz k : Int × Int} {y : Int}
    (hk : k ≠ xz) : agGet (hmUpdateCand botY hm xz y) k = agGet hm k := by
  cases hc : agGet hm xz with
  | none =>
    simp only [hmUpdateCand, hc]
    rw [agGet_agSet, if_neg hk]
  | some cur =>
    cases botY with
    | none =>
      simp only [hmUpdateCand, hc]
      split_ifs with h
      · rw [agGet_agSet, if_neg hk]
      · rfl
    | some b =>
      simp only [hmUpdateCand, hc]
      split_ifs with h
      · rw [agGet_agSet, if_neg hk]
      · rfl

theorem hmUpdateCand_get_self_some (b : Int) (hm : HM) (xz : Int × Int) (y : Int) :
    ∃ v, agGet (hmUpdateCand (some b) hm xz y) xz = some v
      ∧ (v = y ∨ agGet hm xz = some v)
      ∧ (v - (b - 1)).natAbs ≤ (y - (b - 1)).natAbs
      ∧ (∀ cur, agGet hm xz = some cur → (v - (b - 1)).natAbs ≤ (cur - (b - 1)).natAbs) := by
  cases hc : agGet hm xz with
  | none =>
    simp only [hmUpdateCand, hc]
    refine ⟨y, ?_, Or.inl rfl, le_refl _, ?_⟩
    · rw [agGet_agSet, if_pos rfl]
    · intro cur hcur
      exact Option.noConfusion hcur
  | some cur =>
    simp only [hmUpdateCand, hc]
    split_ifs with h
    · refine ⟨y, ?_, Or.inl rfl, le_refl _, ?_⟩
      · rw [agGet_agSet, if_pos rfl]
      · intro cur' hcur'
        obtain rfl : cur = cur' := by
          first
            | exact Option.some.inj hcur'
            | exact Option.some.inj (hc.symm.trans hcur')
        exact le_of_lt h
    · refine ⟨cur, by first | rfl | exact hc, Or.inr (by first | rfl | exact hc), by omega, ?_⟩
      intro cur' hcur'
      obtain rfl : cur = cur' := by
        first
          | exact Option.some.inj hcur'
          | exact Option.some.inj (hc.symm.trans hcur')
      exact le_refl _

theorem hmUpdateCand_get_self_none (hm : HM) (xz : Int × Int) (y : Int) :
    ∃ v, agGet (hmUpdateCand none hm xz y) xz = some v
      ∧ (v = y ∨ agGet hm xz = some v)
      ∧ y ≤ v
      ∧ (∀ cur, agGet hm xz = some cur → cur ≤ v) := by
  cases hc : agGet hm xz with
  | none =>
    simp only [hmUpdateCand, hc]
    refine ⟨y, ?_, Or.inl rfl, le_refl _, ?_⟩
    · rw [agGet_agSet, if_pos rfl]
    · intro cur hcur
      exact Option.noConfusion hcur
  | some cur =>
    simp only [hmUpdateCand, hc]
    split_ifs with h
    · refine ⟨y, ?_, Or.inl rfl, le_refl _, ?_⟩
      · rw [agGet_agSet, if_pos rfl]
      · intro cur' hcur'
        obtain rfl : cur = cur' := by
          first
            | exact Option.some.inj hcur'
            | exact Option.some.inj (hc.symm.trans hcur')
        exact le_of_lt h
    · refine ⟨cur, by first | rfl | exact hc, Or.inr (by first | rfl | exact hc), by omega, ?_⟩
      intro cur' hcur'
      obtain rfl : cur = cur' := by
        first
          | exact Option.some.inj hcur'
          | exact Option.some.inj (hc.symm.trans hcur')
      exact le_refl _

theorem buildHM_fold_some (solids hidden : List P3) (b : Int) :
    ∀ (l : List P3) (acc : HM),
      (∀ p ∈ l, p ∈ solids) →
      (∀ k v, agGet acc k = some v →
        ∃ q, isCand solids hidden q ∧ (q.1, q.2.2) = k ∧ q.2.1 = v) →
      (∀ k v, agGet (List.foldl (fun hm p =>
            if p ∈ hidden then hm
            else if (p.1, p.2.1 + 1, p.2.2) ∈ solids then hm
            else hmUpdateCand (some b) hm (p.1, p.2.2) p.2.1) acc l) k = some v →
          ∃ q, isCand solids hidden q ∧ (q.1, q.2.2) = k ∧ q.2.1 = v)
        ∧ (∀ k v', agGet acc k = some v' →
            ∃ v, agGet (List.foldl (fun hm p =>
              if p ∈ hidden then hm
              else if (p.1, p.2.1 + 1, p.2.2) ∈ solids then hm
              else hmUpdateCand (some b) hm (p.1, p.2.2) p.2.1) acc l) k = some v
              ∧ (v - (b - 1)).natAbs ≤ (v' - (b - 1)).natAbs)
        ∧ (∀ p ∈ l, isCand solids hidden p →
            ∃ v, agGet (List.foldl (fun hm p =>
              if p ∈ hidden then hm
              else if (p.1, p.2.1 + 1, p.2.2) ∈ solids then hm
              else hmUpdateCand (some b) hm (p.1, p.2.2) p.2.1) acc l) (p.1, p.2.2) = some v
              ∧ (v - (b - 1)).natAbs ≤ (p.2.1 - (b - 1)).natAbs) := by
  intro l
  induction l with
  | nil =>
    intro acc _ hacc
    refine ⟨hacc, ?_, ?_⟩
    · intro k v' hv'
      exact ⟨v', hv', le_refl _⟩
    · intro p hp
      exact absurd hp (List.not_mem_nil p)
  | cons p l' ih =>
    intro acc hl hacc
    simp only [List.foldl_cons]
    by_cases hp1 : p ∈ hidden
    · rw [if_pos hp1]
      have := ih acc (fun q hq => hl q (List.mem_cons_of_mem p hq)) hacc
      refine ⟨this.1, this.2.1, ?_⟩
      intro q hq hcand
      rcases List.mem_cons.mp hq with rfl | hq'
      · exact absurd hp1 hcand.2.1
      · exact this.2.2 q hq' hcand
    · rw [if_neg hp1]
      by_cases hp2 : (p.1, p.2.1 + 1, p.2.2) ∈ solids
      · rw [if_pos hp2]
        have := ih acc (fun q hq => hl q (List.mem_cons_of_mem p hq)) hacc
        refine ⟨this.1, this.2.1, ?_⟩
        intro q hq hcand
        rcases List.mem_cons.mp hq with rfl | hq'
        · exact absurd hp2 hcand.2.2
        · exact this.2.2 q hq' hcand
      · rw [if_neg hp2]
        have hcandp : isCand solids hidden p := ⟨hl p (List.mem_cons_self p l'), hp1, hp2⟩
        set acc' := hmUpdateCand (some b) acc (p.1, p.2.2) p.2.1 with hacc'
        have hacc'ok : ∀ k v, agGet acc' k = some v →
            ∃ q, isCand solids hidden q ∧ (q.1, q.2.2) = k ∧ q.2.1 = v := by
          intro k v hv
          by_cases hk : k = (p.1, p.2.2)
          · subst hk
            obtain ⟨w, hw, hwor, -, -⟩ := hmUpdateCand_get_self_some b acc (p.1, p.2.2) p.2.1
            rw [hv] at hw
            obtain rfl : v = w := Option.some.inj hw
            rcases hwor with rfl | hwacc
            · exact ⟨p, hcandp, rfl, rfl⟩
            · exact hacc _ _ hwacc
          · rw [hacc', hmUpdateCand_get_other hk] at hv
            exact hacc _ _ hv
        have ihres := ih acc' (fun q hq => hl q (List.mem_cons_of_mem p hq)) hacc'ok
        refine ⟨ihres.1, ?_, ?_⟩
        · intro k v' hv'
          by_cases hk : k = (p.1, p.2.2)
          · subst hk
            obtain ⟨w, hw, -, -, hwmin⟩ := hmUpdateCand_get_self_some b acc (p.1, p.2.2) p.2.1
            obtain ⟨v, hv, hvle⟩ := ihres.2.1 _ _ hw
            exact ⟨v, hv, le_trans hvle (hwmin _ hv')⟩
          · have : agGet acc' k = some v' := by
              rw [hacc', hmUpdateCand_get_other hk]
              exact hv'
            exact ihres.2.1 _ _ this
        · intro q hq hcand
          rcases List.mem_cons.mp hq with rfl | hq'
          · obtain ⟨w, hw, -, hwy, -⟩ := hmUpdateCand_get_self_some b acc (q.1, q.2.2) q.2.1
            obtain ⟨v, hv, hvle⟩ := ihres.2.1 _ _ hw
            exact ⟨v, hv, le_trans hvle hwy⟩
          · exact ihres.2.2 q hq' hcand

theorem buildHM_fold_none (solids hidden : List P3) :
    ∀ (l : List P3) (acc : HM),
      (∀ p ∈ l, p ∈ solids) →
      (∀ k v, agGet acc k = some v →
        ∃ q, isCand solids hidden q ∧ (q.1, q.2.2) = k ∧ q.2.1 = v) →
      (∀ k v, agGet (List.foldl (fun hm p =>
            if p ∈ hidden then hm
            else if (p.1, p.2.1 + 1, p.2.2) ∈ solids then hm
            else hmUpdateCand none hm (p.1, p.2.2) p.2.1) acc l) k = some v →
          ∃ q, isCand solids hidden q ∧ (q.1, q.2.2) = k ∧ q.2.1 = v)
        ∧ (∀ k v', agGet acc k = some v' →
            ∃ v, agGet (List.foldl (fun hm p =>
              if p ∈ hidden then hm
              else if (p.1, p.2.1 + 1, p.2.2) ∈ solids then hm
              else hmUpdateCand none hm (p.1, p.2.2) p.2.1) acc l) k = some v
              ∧ v' ≤ v)
        ∧ (∀ p ∈ l, isCand solids hidden p →
            ∃ v, agGet (List.foldl (fun hm p =>
              if p ∈ hidden then hm
              else if (p.1, p.2.1 + 1, p.2.2) ∈ solids then hm
              else hmUpdateCand none hm (p.1, p.2.2) p.2.1) acc l) (p.1, p.2.2) = some v
              ∧ p.2.1 ≤ v) := by
  intro l
  induction l with
  | nil =>
    intro acc _ hacc
    refine ⟨hacc, ?_, ?_⟩
    · intro k v' hv'
      exact ⟨v', hv', le_refl _⟩
    · intro p hp
      exact absurd hp (List.not_mem_nil p)
  | cons p l' ih =>
    intro acc hl hacc
    simp only [List.foldl_cons]
    by_cases hp1 : p ∈ hidden
    · rw [if_pos hp1]
      have := ih acc (fun q hq => hl q (List.mem_cons_of_mem p hq)) hacc
      refine ⟨this.1, this.2.1, ?_⟩
      intro q hq hcand
      rcases List.mem_cons.mp hq with rfl | hq'
      · exact absurd hp1 hcand.2.1
      · exact this.2.2 q hq' hcand
    · rw [if_neg hp1]
      by_cases hp2 : (p.1, p.2.1 + 1, p.2.2) ∈ solids
      · rw [if_pos hp2]
        have := ih acc (fun q hq => hl q (List.mem_cons_of_mem p hq)) hacc
        refine ⟨this.1, this.2.1, ?_⟩
        intro q hq hcand
        rcases List.mem_cons.mp hq with rfl | hq'
        · exact absurd hp2 hcand.2.2
        · exact this.2.2 q hq' hcand
      · rw [if_neg hp2]
        have hcandp : isCand solids hidden p := ⟨hl p (List.mem_cons_self p l'), hp1, hp2⟩
        set acc' := hmUpdateCand none acc (p.1, p.2.2) p.2.1 with hacc'
        have hacc'ok : ∀ k v, agGet acc' k = some v →
            ∃ q, isCand solids hidden q ∧ (q.1, q.2.2) = k ∧ q.2.1 = v := by
          intro k v hv
          by_cases hk : k = (p.1, p.2.2)
          · subst hk
            obtain ⟨w, hw, hwor, -, -⟩ := hmUpdateCand_get_self_none acc (p.1, p.2.2) p.2.1
            rw [hv] at hw
            obtain rfl : v = w := Option.some.inj hw
            rcases hwor with rfl | hwacc
            · exact ⟨p, hcandp, rfl, rfl⟩
            · exact hacc _ _ hwacc
          · rw [hacc', hmUpdateCand_get_other hk] at hv
            exact hacc _ _ hv
        have ihres := ih acc' (fun q hq => hl q (List.mem_cons_of_mem p hq)) hacc'ok
        refine ⟨ihres.1, ?_, ?_⟩
        · intro k v' hv'
          by_cases hk : k = (p.1, p.2.2)
          · subst hk
            obtain ⟨w, hw, -, -, hwmax⟩ := hmUpdateCand_get_self_none acc (p.1, p.2.2) p.2.1
            obtain ⟨v, hv, hvle⟩ := ihres.2.1 _ _ hw
            exact ⟨v, hv, le_trans (hwmax _ hv') hvle⟩
          · have : agGet acc' k = some v' := by
              rw [hacc', hmUpdateCand_get_other hk]
              exact hv'
            exact ihres.2.1 _ _ this
        · intro q hq hcand
          rcases List.mem_cons.mp hq with rfl | hq'
          · obtain ⟨w, hw, -, hwy, -⟩ := hmUpdateCand_get_self_none acc (q.1, q.2.2) q.2.1
            obtain ⟨v, hv, hvle⟩ := ihres.2.1 _ _ hw
            exact ⟨v, hv, le_trans hwy hvle⟩
          · exact ihres.2.2 q hq' hcand

/-- C5 (confirmed): every heightmap value is the `y` of a surface candidate
of its column — a block that is in the solid set, not hidden-collision, and
has no solid directly above; every candidate's column is present; with a
reference elevation `bot_y` the stored value minimizes the distance to
`bot_y - 1` over the column's candidates, and without one it maximizes the
candidate height. -/
theorem C5_heightmap_selection (blocks : List Block) (botY : Option Int) :
    (∀ k v, agGet (buildTerrainData blocks botY).1 k = some v →
      ∃ q, isCand (classifyBlocks blocks).1 (classifyBlocks blocks).2.2 q
        ∧ (q.1, q.2.2) = k ∧ q.2.1 = v)
    ∧ (∀ p, isCand (classifyBlocks blocks).1 (classifyBlocks blocks).2.2 p →
        ∃ v, agGet (buildTerrainData blocks botY).1 (p.1, p.2.2) = some v)
    ∧ (∀ b, botY = some b → ∀ k v, agGet (buildTerrainData blocks botY).1 k = some v →
        ∀ p, isCand (classifyBlocks blocks).1 (classifyBlocks blocks).2.2 p →
          (p.1, p.2.2) = k → (v - (b - 1)).natAbs ≤ (p.2.1 - (b - 1)).natAbs)
    ∧ (botY = none → ∀ k v, agGet (buildTerrainData blocks botY).1 k = some v →
        ∀ p, isCand (classifyBlocks blocks).1 (classifyBlocks blocks).2.2 p →
          (p.1, p.2.2) = k → p.2.1 ≤ v) := by
  have hempty : ∀ k v, agGet ([] : HM) k = some v →
      ∃ q, isCand (classifyBlocks blocks).1 (classifyBlocks blocks).2.2 q
        ∧ (q.1, q.2.2) = k ∧ q.2.1 = v := by
    intro k v hv
    exact Option.noConfusion hv
  cases botY with
  | some b =>
    have hres := buildHM_fold_some (classifyBlocks blocks).1 (classifyBlocks blocks).2.2 b
      (classifyBlocks blocks).1 [] (fun p hp => hp) hempty
    refine ⟨hres.1, ?_, ?_, ?_⟩
    · intro p hcand
      obtain ⟨v, hv, -⟩ := hres.2.2 p hcand.1 hcand
      exact ⟨v, hv⟩
    · intro b' hb' k v hv p hcand hcol
      obtain rfl : b = b' := Option.some.inj hb'
      obtain ⟨v', hv', hle⟩ := hres.2.2 p hcand.1 hcand
      rw [hcol] at hv'
      obtain rfl : v = v' := Option.some.inj (hv.symm.trans hv')
      exact hle
    · intro hcontr
      exact Option.noConfusion hcontr
  | none =>
    have hres := buildHM_fold_none (classifyBlocks blocks).1 (classifyBlocks blocks).2.2
      (classifyBlocks blocks).1 [] (fun p hp => hp) hempty
    refine ⟨hres.1, ?_, ?_, ?_⟩
    · intro p hcand
      obtain ⟨v, hv, -⟩ := hres.2.2 p hcand.1 hcand
      exact ⟨v, hv⟩
    · intro b' hb'
      exact Option.noConfusion hb'
    · intro _ k v hv p hcand hcol
      obtain ⟨v', hv', hle⟩ := hres.2.2 p hcand.1 hcand
      rw [hcol] at hv'
      obtain rfl : v = v' := Option.some.inj (hv.symm.trans hv')
      exact hle

theorem C5_heightmap_selection_witness :
    agGet (buildTerrainData exTwoSurfaces (some 7)).1 (0, 0) = some 5
      ∧ isCand (classifyBlocks exTwoSurfaces).1 (classifyBlocks exTwoSurfaces).2.2 (0, 9, 0)
      ∧ ((5 : Int) - (7 - 1)).natAbs ≤ ((9 : Int) - (7 - 1)).natAbs := by
  refine ⟨by decide, ⟨by decide, by decide, by decide⟩, ?_⟩
  exact (C5_heightmap_selection exTwoSurfaces (some 7)).2.2.1 7 rfl (0, 0) 5 (by decide)
    (0, 9, 0) ⟨by decide, by decide, by decide⟩ rfl

/-! ## A* invariants (shared by C1, C3, C4, C7) -/

theorem walkNbr_pOk {hm : HM} {solids liquids : List P3} {allow : Bool}
    {x z cy nx nz ny : Int} {c : ℚ}
    (h : (nx, nz, ny, c) ∈ walkableNeighbors x z cy hm solids liquids allow) :
    agGet hm (nx, nz) = some ny := by
  obtain ⟨d, -, hc⟩ := List.mem_filterMap.mp h
  exact (checkNeighbor_some hc).2.2.1

theorem stepOk_bounds {hm : HM} {solids liquids : List P3} {allow : Bool} {a b : P3}
    (h : stepOk hm solids liquids allow a b) :
    b.2.1 - a.2.1 ≤ 1 ∧ -2 ≤ b.2.1 - a.2.1 ∧ (allow = false → -1 ≤ b.2.1 - a.2.1) := by
  obtain ⟨c, hmem⟩ := h
  obtain ⟨d, -, hc⟩ := List.mem_filterMap.mp hmem
  obtain ⟨-, -, -, -, -, h1, h2, h3, -, -, -⟩ := checkNeighbor_some hc
  exact ⟨h1, h2, h3⟩

theorem foldlMin_mem : ∀ (rest : List ANode) (a : ANode),
    rest.foldl (fun best c => if nodeLe c best then c else best) a ∈ a :: rest := by
  intro rest
  induction rest with
  | nil =>
    intro a
    exact List.mem_singleton.mpr rfl
  | cons c cs ih =>
    intro a
    simp only [List.foldl_cons]
    have h := ih (if nodeLe c a then c else a)
    rcases List.mem_cons.mp h with h' | h'
    · rw [h']
      split_ifs
      · exact List.mem_cons_of_mem _ (List.mem_cons_self _ _)
      · exact List.mem_cons_self _ _
    · exact List.mem_cons_of_mem _ (List.mem_cons_of_mem _ h')

theorem popMin_mem {l : List ANode} {nd : ANode} {rest : List ANode}
    (h : popMin l = some (nd, rest)) : nd ∈ l ∧ ∀ x ∈ rest, x ∈ l := by
  cases l with
  | nil => exact Option.noConfusion h
  | cons a as =>
    simp only [popMin, Option.some.injEq, Prod.mk.injEq] at h
    obtain ⟨rfl, rfl⟩ := h
    constructor
    · exact foldlMin_mem as a
    · intro x hx
      exact List.mem_of_mem_erase hx

theorem findValidStartGo_ok {botX botY botZ : Int} {hm : HM} {sx sy sz : Int} :
    ∀ ds, findValidStartGo botX botY botZ hm ds = some (sx, sy, sz) →
      agGet hm (sx, sz) = some sy := by
  intro ds
  induction ds with
  | nil =>
    intro h
    exact Option.noConfusion h
  | cons d rest ih =>
    intro h
    rw [findValidStartGo] at h
    cases hg : agGet hm (botX + d.1, botZ + d.2) with
    | none =>
      simp only [hg] at h
      exact ih h
    | some s =>
      simp only [hg] at h
      split_ifs at h with hcl
      · simp only [Option.some.injEq, Prod.mk.injEq] at h
        obtain ⟨rfl, rfl, rfl⟩ := h
        exact hg
      · exact ih h

theorem relaxNeighbor_inv (goal : Int × Int) {hm : HM} {solids liquids : List P3}
    {allow : Bool} {cx cy cz : Int}
    (hcur : agGet hm (cx, cz) = some cy) (st : AState) (nb : Int × Int × Int × ℚ)
    (hnb : nb ∈ walkableNeighbors cx cz cy hm solids liquids allow)
    (ho : openOk hm st.openL) (hc : cfOk hm solids liquids allow st.cameFrom) :
    openOk hm (relaxNeighbor goal cx cy cz st nb).openL
      ∧ cfOk hm solids liquids allow (relaxNeighbor goal cx cy cz st nb).cameFrom := by
  obtain ⟨nx, nz, ny, cost⟩ := nb
  simp only [relaxNeighbor]
  split_ifs with hupd
  · constructor
    · intro nd hnd
      rcases List.mem_append.mp hnd with h' | h'
      · exact ho nd h'
      · rw [List.mem_singleton] at h'
        subst h'
        exact walkNbr_pOk hnb
    · intro k v hkv
      rw [agGet_agSet] at hkv
      by_cases hk : k = (nx, nz)
      · rw [if_pos hk] at hkv
        obtain rfl : (cx, cy, cz) = v := Option.some.inj hkv
        subst hk
        exact ⟨hcur, ny, walkNbr_pOk hnb, cost, hnb⟩
      · rw [if_neg hk] at hkv
        exact hc k v hkv
  · exact ⟨ho, hc⟩

theorem relaxFold_inv (goal : Int × Int) {hm : HM} {solids liquids : List P3}
    {allow : Bool} {cx cy cz : Int}
    (hcur : agGet hm (cx, cz) = some cy) :
    ∀ (nbs : List (Int × Int × Int × ℚ)) (st : AState),
      (∀ nb ∈ nbs, nb ∈ walkableNeighbors cx cz cy hm solids liquids allow) →
      openOk hm st.openL → cfOk hm solids liquids allow st.cameFrom →
      openOk hm (List.foldl (relaxNeighbor goal cx cy cz) st nbs).openL
        ∧ cfOk hm solids liquids allow
            (List.foldl (relaxNeighbor goal cx cy cz) st nbs).cameFrom := by
  intro nbs
  induction nbs with
  | nil =>
    intro st _ ho hc
    exact ⟨ho, hc⟩
  | cons nb rest ih =>
    intro st hsub ho hc
    simp only [List.foldl_cons]
    have hone := relaxNeighbor_inv goal hcur st nb
      (hsub nb (List.mem_cons_self nb rest)) ho hc
    exact ih _ (fun q hq => hsub q (List.mem_cons_of_mem nb hq)) hone.1 hone.2

theorem reconstruct_ok {hm : HM} {solids liquids : List P3} {allow : Bool}
    {cf : List ((Int × Int) × P3)} (hcf : cfOk hm solids liquids allow cf) :
    ∀ (fuel : Nat) (cur : Int × Int) (acc : List P3),
      acc ≠ [] → (∀ p ∈ acc, pOk hm p) →
      List.Chain' (stepOk hm solids liquids allow) acc →
      (∀ h0, acc.head? = some h0 → cur = (h0.1, h0.2.2)) →
      (reconstruct cf fuel cur acc ≠ []
        ∧ (∀ p ∈ reconstruct cf fuel cur acc, pOk hm p)
        ∧ List.Chain' (stepOk hm solids liquids allow) (reconstruct cf fuel cur acc)
        ∧ (reconstruct cf fuel cur acc).getLast? = acc.getLast?) := by
  intro fuel
  induction fuel with
  | zero =>
    intro cur acc hne hp hch hhd
    exact ⟨hne, hp, hch, rfl⟩
  | succ n ih =>
    intro cur acc hne hp hch hhd
    rw [reconstruct]
    cases hcget : agGet cf cur with
    | none => exact ⟨hne, hp, hch, rfl⟩
    | some v =>
      obtain ⟨hpv, y, hy, hstep⟩ := hcf cur v hcget
      cases acc with
      | nil => exact absurd rfl hne
      | cons h0 t =>
        have hcur : cur = (h0.1, h0.2.2) := hhd h0 rfl
        have hy' : y = h0.2.1 := by
          have hph0 := hp h0 (List.mem_cons_self _ _)
          rw [hcur] at hy
          exact Option.some.inj (hy.symm.trans hph0)
        have hstep' : stepOk hm solids liquids allow v h0 := by
          rw [hcur, hy'] at hstep
          exact hstep
        have hres := ih (v.1, v.2.2) (v :: h0 :: t) (by simp) ?_ ?_ ?_
        · refine ⟨hres.1, hres.2.1, hres.2.2.1, ?_⟩
          rw [hres.2.2.2, List.getLast?_cons_cons]
        · intro p hpmem
          rcases List.mem_cons.mp hpmem with rfl | h'
          · exact hpv
          · exact hp p h'
        · exact List.chain'_cons.mpr ⟨hstep', hch⟩
        · intro h0' hh0'
          obtain rfl : v = h0' := Option.some.inj hh0'
          rfl

theorem astarGo_ok {goal : Int × Int} {hm : HM} {solids liquids : List P3} {allow : Bool} :
    ∀ (fuel : Nat) (st : AState) (path : List P3),
      openOk hm st.openL → cfOk hm solids liquids allow st.cameFrom →
      astarGo goal hm solids liquids allow fuel st = some path →
      (path ≠ [] ∧ (∀ p ∈ path, pOk hm p)
        ∧ List.Chain' (stepOk hm solids liquids allow) path
        ∧ ∃ g, path.getLast? = some g ∧ (g.1, g.2.2) = goal) := by
  intro fuel
  induction fuel with
  | zero =>
    intro st path _ _ h
    exact Option.noConfusion h
  | succ n ih =>
    intro st path ho hc h
    rw [astarGo] at h
    cases hpop : popMin st.openL with
    | none =>
      rw [hpop] at h
      exact Option.noConfusion h
    | some pr =>
      obtain ⟨nd, rest⟩ := pr
      simp only [hpop] at h
      have hmem := popMin_mem hpop
      have hnd : agGet hm (nd.x, nd.z) = some nd.y := ho nd hmem.1
      split_ifs at h with hgoal
      · obtain rfl := Option.some.inj h
        have hsingle : ∀ p ∈ [(nd.x, nd.y, nd.z)], pOk hm p := by
          intro p hp
          rw [List.mem_singleton] at hp
          subst hp
          exact hnd
        have hrec := reconstruct_ok hc (st.cameFrom.length + 1) (nd.x, nd.z)
          [(nd.x, nd.y, nd.z)] (by simp) hsingle (List.chain'_singleton _)
          (by intro h0 hh0; obtain rfl := Option.some.inj hh0; rfl)
        refine ⟨hrec.1, hrec.2.1, hrec.2.2.1, (nd.x, nd.y, nd.z), ?_, hgoal⟩
        rw [hrec.2.2.2]
        rfl
      · have hinv := relaxFold_inv goal hnd
          (walkableNeighbors nd.x nd.z nd.y hm solids liquids allow)
          { st with openL := rest } (fun q hq => hq)
          (fun x hx => ho x (hmem.2 x hx)) hc
        exact ih _ path hinv.1 hinv.2 h

theorem astar_ok {fuel : Nat} {start : P3} {goal : Int × Int} {hm : HM}
    {solids liquids : List P3} {allow : Bool} {path : List P3}
    (h : astar fuel start goal hm solids liquids allow = some path) :
    path ≠ [] ∧ (∀ p ∈ path, pOk hm p)
      ∧ List.Chain' (stepOk hm solids liquids allow) path
      ∧ ∃ g, path.getLast? = some g ∧ (g.1, g.2.2) = goal := by
  rw [astar] at h
  cases hs : findValidStart start.1 start.2.1 start.2.2 hm with
  | none =>
    simp only [hs] at h
    exact Option.noConfusion h
  | some s =>
    simp only [hs] at h
    obtain ⟨sx, sy, sz⟩ := s
    refine astarGo_ok fuel _ path ?_ ?_ h
    · intro nd hnd
      rw [List.mem_singleton] at hnd
      subst hnd
      exact findValidStartGo_ok startOffsets hs
    · intro k v hkv
      exact Option.noConfusion hkv

/-! ## `find_safe_path` success inversion -/

theorem fspPath_cases {fuel : Nat} {cp tp : PosQ} {blocks : List Block} {scanR : Int}
    {path : List P3} (h : fspPath fuel cp tp blocks scanR = some path) :
    fspPhase1 fuel cp tp blocks scanR = some path
      ∨ (fspPhase1 fuel cp tp blocks scanR = none
          ∧ fspPhase2 fuel cp tp blocks scanR = some path) := by
  rw [fspPath] at h
  cases hp1 : fspPhase1 fuel cp tp blocks scanR with
  | some p =>
    simp only [hp1] at h
    exact Or.inl h
  | none =>
    simp only [hp1] at h
    exact Or.inr ⟨rfl, h⟩

theorem fspPhase1_astar {fuel : Nat} {cp tp : PosQ} {blocks : List Block} {scanR : Int}
    {path : List P3} (h : fspPhase1 fuel cp tp blocks scanR = some path) :
    ∃ g, fspGoal cp tp blocks scanR = some g
      ∧ astar fuel (fspStart cp) g (fspTerrain cp blocks).1
          (fspTerrain cp blocks).2.1 (fspTerrain cp blocks).2.2 false = some path := by
  rw [fspPhase1] at h
  cases hg : fspGoal cp tp blocks scanR with
  | none =>
    simp only [hg] at h
    exact Option.noConfusion h
  | some g =>
    simp only [hg] at h
    exact ⟨g, rfl, h⟩

theorem fspPhase2_astar {fuel : Nat} {cp tp : PosQ} {blocks : List Block} {scanR : Int}
    {path : List P3} (h : fspPhase2 fuel cp tp blocks scanR = some path) :
    ∃ g, fspGoal cp tp blocks scanR = some g
      ∧ astar fuel (fspStart cp) g (fspTerrain cp blocks).1
          (fspTerrain cp blocks).2.1 (fspTerrain cp blocks).2.2 true = some path := by
  rw [fspPhase2] at h
  cases hg : fspGoal cp tp blocks scanR with
  | none =>
    simp only [hg] at h
    exact Option.noConfusion h
  | some g =>
    simp only [hg] at h
    exact ⟨g, rfl, h⟩

theorem findSafePath_spec (fuel : Nat) (cp tp : PosQ) (blocks : List Block) (scanR : Int)
    (h : (findSafePath fuel cp tp blocks scanR).success = true) :
    ∃ g path,
      fspGoal cp tp blocks scanR = some g
      ∧ fspPath fuel cp tp blocks scanR = some path
      ∧ (findSafePath fuel cp tp blocks scanR).waypoints = path.map wpShift
      ∧ ((findSafePath fuel cp tp blocks scanR).reachedTarget = true ↔
          ((agGet (fspTerrain cp blocks).1 (fspTargetXZ tp)).isSome = true
            ∧ g = fspTargetXZ tp ∧ 0 < path.length)) := by
  by_cases h1 : blocks = []
  · rw [findSafePath, if_pos h1] at h
    exact Bool.noConfusion h
  · by_cases h2 : (fspTerrain cp blocks).1 = []
    · rw [findSafePath, if_neg h1] at h
      simp only [h2, if_pos rfl] at h
      exact Bool.noConfusion h
    · cases hg : fspGoal cp tp blocks scanR with
      | none =>
        rw [findSafePath, if_neg h1] at h
        simp only [if_neg h2, hg] at h
        exact Bool.noConfusion h
      | some g =>
        cases hp : fspPath fuel cp tp blocks scanR with
        | none =>
          rw [findSafePath, if_neg h1] at h
          simp only [if_neg h2, hg, hp] at h
          exact Bool.noConfusion h
        | some path =>
          refine ⟨g, path, rfl, rfl, ?_, ?_⟩
          · rw [findSafePath, if_neg h1]
            simp only [if_neg h2, hg, hp, wpShift]
            rfl
          · rw [findSafePath, if_neg h1]
            simp only [if_neg h2, hg, hp, Bool.and_eq_true, decide_eq_true_eq,
              and_assoc]

/-! ## Claim C1 -/

/-- C1 (confirmed): on success, every returned waypoint's `y - 1` is
exactly the heightmap value of its column, in the heightmap built from the
supplied blocks with the floored current `y` as reference elevation. -/
theorem C1_waypoint_heightmap (fuel : Nat) (cp tp : PosQ) (blocks : List Block) (scanR : Int)
    (h : (findSafePath fuel cp tp blocks scanR).success = true) :
    ∀ w ∈ (findSafePath fuel cp tp blocks scanR).waypoints,
      agGet (buildTerrainData blocks (some cp.y.floor)).1 (w.1, w.2.2) = some (w.2.1 - 1) := by
  obtain ⟨g, path, hg, hp, hw, -⟩ := findSafePath_spec fuel cp tp blocks scanR h
  intro w hwmem
  rw [hw] at hwmem
  obtain ⟨p, hpmem, rfl⟩ := List.mem_map.mp hwmem
  have hpok : pOk (fspTerrain cp blocks).1 p := by
    rcases fspPath_cases hp with hph | ⟨-, hph⟩
    · obtain ⟨g', -, hast⟩ := fspPhase1_astar hph
      exact (astar_ok hast).2.1 p hpmem
    · obtain ⟨g', -, hast⟩ := fspPhase2_astar hph
      exact (astar_ok hast).2.1 p hpmem
  have heq : p.2.1 + 1 - 1 = p.2.1 := by omega
  simpa [wpShift, pOk, heq] using hpok

theorem C1_waypoint_heightmap_witness :
    (findSafePath 10 ⟨0, 11, 0⟩ ⟨1, 11, 0⟩ exFlat 16).success = true
      ∧ ∀ w ∈ (findSafePath 10 ⟨0, 11, 0⟩ ⟨1, 11, 0⟩ exFlat 16).waypoints,
        agGet (buildTerrainData exFlat (some (11 : ℚ).floor)).1 (w.1, w.2.2)
          = some (w.2.1 - 1) :=
  ⟨by decide, C1_waypoint_heightmap 10 ⟨0, 11, 0⟩ ⟨1, 11, 0⟩ exFlat 16 (by decide)⟩

/-! ## Claim C3 -/

/-- C3 counterexample: the claim allows at most one −2 transition per
successful path, but the drop-fallback A* accepts any number of escapable
2-block drops: this world yields a successful path whose waypoints make two
separate −2 transitions. -/
theorem C3_counterexample :
    (findSafePath 30 ⟨1/2, 11, 1/2⟩ ⟨7/2, 11, 1/2⟩ exTwoDrops 16).success = true
      ∧ (findSafePath 30 ⟨1/2, 11, 1/2⟩ ⟨7/2, 11, 1/2⟩ exTwoDrops 16).waypoints
          = [(0, 11, 0), (1, 9, 0), (2, 9, 0), (3, 7, 0)]
      ∧ (List.countP
          (fun pr : P3 × P3 => decide (pr.2.2.1 - pr.1.2.1 = -2))
          (List.zip [((0 : Int), (11 : Int), (0 : Int)), (1, 9, 0), (2, 9, 0), (3, 7, 0)]
            [((1 : Int), (9 : Int), (0 : Int)), (2, 9, 0), (3, 7, 0)])) = 2 := by
  refine ⟨by decide, by decide, by decide⟩

/-- C3 (amended): on success, consecutive waypoints rise by at most 1 and
fall by at most 2; when the first (reversible-only) search already produced
the path, consecutive waypoints also fall by at most 1 — so −2 transitions
occur only under the drop fallback, but their number is not bounded by one. -/
theorem C3_step_bounds (fuel : Nat) (cp tp : PosQ) (blocks : List Block) (scanR : Int)
    (h : (findSafePath fuel cp tp blocks scanR).success = true) :
    List.Chain' (fun a b : P3 => b.2.1 - a.2.1 ≤ 1 ∧ -2 ≤ b.2.1 - a.2.1)
        (findSafePath fuel cp tp blocks scanR).waypoints
      ∧ (∀ p, fspPhase1 fuel cp tp blocks scanR = some p →
          List.Chain' (fun a b : P3 => b.2.1 - a.2.1 ≤ 1 ∧ -1 ≤ b.2.1 - a.2.1)
            (findSafePath fuel cp tp blocks scanR).waypoints) := by
  obtain ⟨g, path, hg, hp, hw, -⟩ := findSafePath_spec fuel cp tp blocks scanR h
  constructor
  · rw [hw]
    rw [List.chain'_map]
    rcases fspPath_cases hp with hph | ⟨-, hph⟩
    · obtain ⟨g', -, hast⟩ := fspPhase1_astar hph
      refine List.Chain'.imp ?_ (astar_ok hast).2.2.1
      intro a b hab
      have hb := stepOk_bounds hab
      simp only [wpShift]
      constructor <;> omega
    · obtain ⟨g', -, hast⟩ := fspPhase2_astar hph
      refine List.Chain'.imp ?_ (astar_ok hast).2.2.1
      intro a b hab
      have hb := stepOk_bounds hab
      simp only [wpShift]
      constructor <;> omega
  · intro p hphase
    have hpeq : fspPath fuel cp tp blocks scanR = some p := by
      rw [fspPath, hphase]
    rw [hp] at hpeq
    obtain rfl : path = p := Option.some.inj hpeq
    rw [hw]
    rw [List.chain'_map]
    obtain ⟨g', -, hast⟩ := fspPhase1_astar hphase
    refine List.Chain'.imp ?_ (astar_ok hast).2.2.1
    intro a b hab
    have hb := stepOk_bounds hab
    have hfalse := hb.2.2 rfl
    simp only [wpShift]
    constructor <;> omega

theorem C3_step_bounds_witness :
    (findSafePath 10 ⟨0, 11, 0⟩ ⟨1, 11, 0⟩ exFlat 16).success = true
      ∧ List.Chain' (fun a b : P3 => b.2.1 - a.2.1 ≤ 1 ∧ -2 ≤ b.2.1 - a.2.1)
          (findSafePath 10 ⟨0, 11, 0⟩ ⟨1, 11, 0⟩ exFlat 16).waypoints :=
  ⟨by decide, (C3_step_bounds 10 ⟨0, 11, 0⟩ ⟨1, 11, 0⟩ exFlat 16 (by decide)).1⟩

/-! ## Claim C4 -/

/-- C4 (confirmed): a successful call uses at most two A* searches — the
reversible-only phase, and, only when it returns no path, the drop-allowing
phase; a drop step (height difference below −1) is accepted only when the
bounded pit-escape BFS with its fixed node budget of 16 succeeds from the
landing; and the reversible-only phase accepts only height differences in
[−1, 1]. -/
theorem C4_two_phase :
    (∀ (fuel : Nat) (cp tp : PosQ) (blocks : List Block) (scanR : Int),
      (findSafePath fuel cp tp blocks scanR).success = true →
      ∃ g path, fspGoal cp tp blocks scanR = some g
        ∧ (findSafePath fuel cp tp blocks scanR).waypoints = path.map wpShift
        ∧ (astar fuel (fspStart cp) g (fspTerrain cp blocks).1 (fspTerrain cp blocks).2.1
              (fspTerrain cp blocks).2.2 false = some path
          ∨ (astar fuel (fspStart cp) g (fspTerrain cp blocks).1 (fspTerrain cp blocks).2.1
                (fspTerrain cp blocks).2.2 false = none
            ∧ astar fuel (fspStart cp) g (fspTerrain cp blocks).1 (fspTerrain cp blocks).2.1
                (fspTerrain cp blocks).2.2 true = some path)))
    ∧ (∀ (hm : HM) (solids liquids : List P3) (x z cy nx nz ny : Int) (c : ℚ),
        (nx, nz, ny, c) ∈ walkableNeighbors x z cy hm solids liquids true →
        ny - cy < -1 → canEscapePit nx nz ny hm solids liquids 16 = true)
    ∧ (∀ (hm : HM) (solids liquids : List P3) (x z cy nx nz ny : Int) (c : ℚ),
        (nx, nz, ny, c) ∈ walkableNeighbors x z cy hm solids liquids false →
        -1 ≤ ny - cy ∧ ny - cy ≤ 1) := by
  refine ⟨?_, ?_, ?_⟩
  · intro fuel cp tp blocks scanR h
    obtain ⟨g, path, hg, hp, hw, -⟩ := findSafePath_spec fuel cp tp blocks scanR h
    refine ⟨g, path, hg, hw, ?_⟩
    rcases fspPath_cases hp with hph | ⟨hnone, hph⟩
    · obtain ⟨g', hg', hast⟩ := fspPhase1_astar hph
      obtain rfl : g = g' := Option.some.inj (hg.symm.trans hg')
      exact Or.inl hast
    · obtain ⟨g', hg', hast⟩ := fspPhase2_astar hph
      obtain rfl : g = g' := Option.some.inj (hg.symm.trans hg')
      refine Or.inr ⟨?_, hast⟩
      rw [fspPhase1, hg] at hnone
      exact hnone
  · intro hm solids liquids x z cy nx nz ny c hmem hdrop
    obtain ⟨d, -, hc⟩ := List.mem_filterMap.mp hmem
    obtain ⟨-, -, -, -, -, -, -, -, hesc, -, -⟩ := checkNeighbor_some hc
    exact hesc hdrop
  · intro hm solids liquids x z cy nx nz ny c hmem
    obtain ⟨d, -, hc⟩ := List.mem_filterMap.mp hmem
    obtain ⟨-, -, -, -, -, h1, -, h3, -, -, -⟩ := checkNeighbor_some hc
    exact ⟨h3 rfl, h1⟩

theorem C4_two_phase_witness :
    (findSafePath 10 ⟨0, 11, 0⟩ ⟨1, 11, 0⟩ exFlat 16).success = true
      ∧ (∃ g path, fspGoal ⟨0, 11, 0⟩ ⟨1, 11, 0⟩ exFlat 16 = some g
          ∧ (findSafePath 10 ⟨0, 11, 0⟩ ⟨1, 11, 0⟩ exFlat 16).waypoints = path.map wpShift
          ∧ (astar 10 (fspStart ⟨0, 11, 0⟩) g (fspTerrain ⟨0, 11, 0⟩ exFlat).1
                (fspTerrain ⟨0, 11, 0⟩ exFlat).2.1 (fspTerrain ⟨0, 11, 0⟩ exFlat).2.2 false
                = some path
            ∨ (astar 10 (fspStart ⟨0, 11, 0⟩) g (fspTerrain ⟨0, 11, 0⟩ exFlat).1
                  (fspTerrain ⟨0, 11, 0⟩ exFlat).2.1 (fspTerrain ⟨0, 11, 0⟩ exFlat).2.2 false
                  = none
              ∧ astar 10 (fspStart ⟨0, 11, 0⟩) g (fspTerrain ⟨0, 11, 0⟩ exFlat).1
                  (fspTerrain ⟨0, 11, 0⟩ exFlat).2.1 (fspTerrain ⟨0, 11, 0⟩ exFlat).2.2 true
                  = some path)))
      ∧ ((1, 0, 8, (13/10 : ℚ)) ∈ walkableNeighbors 0 0 10
            (fspTerrain ⟨1/2, 11, 1/2⟩ exTwoDrops).1 (fspTerrain ⟨1/2, 11, 1/2⟩ exTwoDrops).2.1
            [] true)
      ∧ canEscapePit 1 0 8 (fspTerrain ⟨1/2, 11, 1/2⟩ exTwoDrops).1
          (fspTerrain ⟨1/2, 11, 1/2⟩ exTwoDrops).2.1 [] 16 = true := by
  have hmem : (1, 0, 8, (13/10 : ℚ)) ∈ walkableNeighbors 0 0 10
      (fspTerrain ⟨1/2, 11, 1/2⟩ exTwoDrops).1 (fspTerrain ⟨1/2, 11, 1/2⟩ exTwoDrops).2.1
      [] true := by decide
  refine ⟨by decide, C4_two_phase.1 10 ⟨0, 11, 0⟩ ⟨1, 11, 0⟩ exFlat 16 (by decide), hmem, ?_⟩
  exact C4_two_phase.2.1 _ _ _ 0 0 10 1 0 8 (13/10) hmem (by decide)

/-! ## Claim C7 -/

theorem agGet_isSome_of_key {α : Type} :
    ∀ (l : List ((Int × Int) × α)) (kv : (Int × Int) × α), kv ∈ l → (agGet l kv.1).isSome := by
  intro l
  induction l with
  | nil =>
    intro kv hkv
    exact absurd hkv (List.not_mem_nil kv)
  | cons p rest ih =>
    intro kv hkv
    rcases List.mem_cons.mp hkv with rfl | h'
    · simp [agGet]
    · by_cases hp : p.1 = kv.1
      · simp [agGet, hp]
      · simp only [agGet, if_neg hp]
        exact ih kv h'

theorem edgeScan_fold (s t : Int × Int) :
    ∀ (l : HM) (acc : Option ((Int × Int) × Int)),
      (∀ b0, acc = some b0 → b0.2 = edgeSc s t b0.1) →
      ∀ r, List.foldl (fun best p =>
          match best with
          | none => some (p.1, edgeSc s t p.1)
          | some b => if edgeSc s t p.1 > b.2 then some (p.1, edgeSc s t p.1) else some b)
          acc l = some r →
        r.2 = edgeSc s t r.1
          ∧ (acc = some r ∨ ∃ kv ∈ l, r.1 = kv.1)
          ∧ (∀ kv ∈ l, edgeSc s t kv.1 ≤ r.2)
          ∧ (∀ b0, acc = some b0 → b0.2 ≤ r.2) := by
  intro l
  induction l with
  | nil =>
    intro acc hacc r hr
    simp only [List.foldl_nil] at hr
    refine ⟨hacc r hr, Or.inl hr, ?_, ?_⟩
    · intro kv hkv
      exact absurd hkv (List.not_mem_nil kv)
    · intro b0 hb0
      rw [hr] at hb0
      obtain rfl : r = b0 := Option.some.inj hb0
      exact le_refl _
  | cons p l' ih =>
    intro acc hacc r hr
    simp only [List.foldl_cons] at hr
    cases hacc0 : acc with
    | none =>
      rw [hacc0] at hr
      simp only at hr
      have hstep : ∀ b0, (some (p.1, edgeSc s t p.1) : Option ((Int × Int) × Int)) = some b0 →
          b0.2 = edgeSc s t b0.1 := by
        intro b0 hb0
        obtain rfl : (p.1, edgeSc s t p.1) = b0 := Option.some.inj hb0
        rfl
      obtain ⟨hsc, horig, hall, htr⟩ := ih _ hstep r hr
      refine ⟨hsc, ?_, ?_, ?_⟩
      · rcases horig with h' | ⟨kv, hkv, hkv'⟩
        · obtain rfl : (p.1, edgeSc s t p.1) = r := Option.some.inj h'
          exact Or.inr ⟨p, List.mem_cons_self p l', rfl⟩
        · exact Or.inr ⟨kv, List.mem_cons_of_mem p hkv, hkv'⟩
      · intro kv hkv
        rcases List.mem_cons.mp hkv with rfl | h'
        · exact htr (kv.1, edgeSc s t kv.1) rfl
        · exact hall kv h'
      · intro b0 hb0
        exact Option.noConfusion hb0
    | some b =>
      rw [hacc0] at hr
      simp only at hr
      have hb2 : b.2 = edgeSc s t b.1 := hacc b (by rw [hacc0])
      by_cases hgt : edgeSc s t p.1 > b.2
      · rw [if_pos hgt] at hr
        have hstep : ∀ b0, (some (p.1, edgeSc s t p.1) : Option ((Int × Int) × Int)) = some b0 →
            b0.2 = edgeSc s t b0.1 := by
          intro b0 hb0
          obtain rfl : (p.1, edgeSc s t p.1) = b0 := Option.some.inj hb0
          rfl
        obtain ⟨hsc, horig, hall, htr⟩ := ih _ hstep r hr
        refine ⟨hsc, ?_, ?_, ?_⟩
        · rcases horig with h' | ⟨kv, hkv, hkv'⟩
          · obtain rfl : (p.1, edgeSc s t p.1) = r := Option.some.inj h'
            exact Or.inr ⟨p, List.mem_cons_self p l', rfl⟩
          · exact Or.inr ⟨kv, List.mem_cons_of_mem p hkv, hkv'⟩
        · intro kv hkv
          rcases List.mem_cons.mp hkv with rfl | h'
          · exact htr (kv.1, edgeSc s t kv.1) rfl
          · exact hall kv h'
        · intro b0 hb0
          obtain rfl : b = b0 := Option.some.inj hb0
          have := htr (p.1, edgeSc s t p.1) rfl
          calc b.2 ≤ edgeSc s t p.1 := le_of_lt hgt
            _ ≤ r.2 := this
      · rw [if_neg hgt] at hr
        have hstep : ∀ b0, (some b : Option ((Int × Int) × Int)) = some b0 →
            b0.2 = edgeSc s t b0.1 := by
          intro b0 hb0
          obtain rfl : b = b0 := Option.some.inj hb0
          exact hb2
        obtain ⟨hsc, horig, hall, htr⟩ := ih _ hstep r hr
        refine ⟨hsc, ?_, ?_, ?_⟩
        · rcases horig with h' | ⟨kv, hkv, hkv'⟩
          · exact Or.inl (hacc0.symm ▸ h')
          · exact Or.inr ⟨kv, List.mem_cons_of_mem p hkv, hkv'⟩
        · intro kv hkv
          rcases List.mem_cons.mp hkv with rfl | h'
          · have := htr b rfl
            omega
          · exact hall kv h'
        · intro b0 hb0
          obtain rfl : b = b0 := Option.some.inj hb0
          exact htr b rfl

theorem edgeScan_fold_isSome (s t : Int × Int) :
    ∀ (l : HM) (b0 : (Int × Int) × Int),
      (List.foldl (fun best p =>
        match best with
        | none => some (p.1, edgeSc s t p.1)
        | some b => if edgeSc s t p.1 > b.2 then some (p.1, edgeSc s t p.1) else some b)
        (some b0) l).isSome := by
  intro l
  induction l with
  | nil =>
    intro b0
    rfl
  | cons p l' ih =>
    intro b0
    simp only [List.foldl_cons]
    by_cases hgt : edgeSc s t p.1 > b0.2
    · simp only [if_pos hgt]
      exact ih _
    · simp only [if_neg hgt]
      exact ih _

theorem edgeScan_ne_nil (s t : Int × Int) (l : HM) (h : l ≠ []) :
    ∃ r, edgeScan s t l = some r := by
  cases l with
  | nil => exact absurd rfl h
  | cons p l' =>
    rw [edgeScan]
    simp only [List.foldl_cons]
    have := edgeScan_fold_isSome s t l' (p.1, edgeSc s t p.1)
    exact Option.isSome_iff_exists.mp this

theorem findEdgeGoal_spec (s t : Int × Int) (hm : HM) (scanR : Int)
    (hne : hm ≠ []) (hst : ¬(t.1 - s.1 = 0 ∧ t.2 - s.2 = 0)) :
    ∃ g, findEdgeGoal s t hm scanR = some g
      ∧ (∃ kv ∈ hm, g = kv.1)
      ∧ ∀ kv ∈ hm, edgeSc s t kv.1 ≤ edgeSc s t g := by
  rw [findEdgeGoal, if_neg hne, if_neg hst]
  obtain ⟨r, hr⟩ := edgeScan_ne_nil s t hm hne
  have hprops := edgeScan_fold s t hm none
    (fun b0 hb0 => Option.noConfusion hb0) r hr
  refine ⟨r.1, ?_, ?_, ?_⟩
  · rw [hr]
    rfl
  · rcases hprops.2.1 with h' | h'
    · exact Option.noConfusion h'
    · exact h'
  · intro kv hkv
    calc edgeSc s t kv.1 ≤ r.2 := hprops.2.2.1 kv hkv
      _ = edgeSc s t r.1 := hprops.1

theorem findSafePath_reached_success (fuel : Nat) (cp tp : PosQ) (blocks : List Block)
    (scanR : Int) (h : (findSafePath fuel cp tp blocks scanR).reachedTarget = true) :
    (findSafePath fuel cp tp blocks scanR).success = true := by
  by_cases h1 : blocks = []
  · rw [findSafePath, if_pos h1] at h
    exact Bool.noConfusion h
  · by_cases h2 : (fspTerrain cp blocks).1 = []
    · rw [findSafePath, if_neg h1] at h
      simp only [if_pos h2] at h
      exact Bool.noConfusion h
    · cases hg : fspGoal cp tp blocks scanR with
      | none =>
        rw [findSafePath, if_neg h1] at h
        simp only [if_neg h2, hg] at h
        exact Bool.noConfusion h
      | some g =>
        cases hp : fspPath fuel cp tp blocks scanR with
        | none =>
          rw [findSafePath, if_neg h1] at h
          simp only [if_neg h2, hg, hp] at h
          exact Bool.noConfusion h
        | some path =>
          rw [findSafePath, if_neg h1]
          simp only [if_neg h2, hg, hp]

/-- C7 (amended): when the floored target column is not in the non-empty
heightmap and differs from the floored start column, the substituted goal is
a heightmap column of maximal scalar projection onto the start-to-target
direction; a successful search for an out-of-scan target reports
`reached_target = false` with a nonempty waypoint list; and
`reached_target = true` implies the target column is in the heightmap and
the path ends exactly on it. (The claim as stated fails when the floored
start and target columns coincide outside the heightmap: the code then
substitutes the start column itself, which need not be a heightmap column —
see the counterexample.) -/
theorem C7_edge_goal (fuel : Nat) (cp tp : PosQ) (blocks : List Block) (scanR : Int) :
    (agGet (fspTerrain cp blocks).1 (fspTargetXZ tp) = none →
      (fspTerrain cp blocks).1 ≠ [] →
      (cp.x.floor, cp.z.floor) ≠ fspTargetXZ tp →
      ∃ g, fspGoal cp tp blocks scanR = some g
        ∧ (agGet (fspTerrain cp blocks).1 g).isSome = true
        ∧ ∀ kv ∈ (fspTerrain cp blocks).1,
            edgeSc (cp.x.floor, cp.z.floor) (fspTargetXZ tp) kv.1
              ≤ edgeSc (cp.x.floor, cp.z.floor) (fspTargetXZ tp) g)
    ∧ ((findSafePath fuel cp tp blocks scanR).success = true →
        agGet (fspTerrain cp blocks).1 (fspTargetXZ tp) = none →
        (findSafePath fuel cp tp blocks scanR).reachedTarget = false
          ∧ (findSafePath fuel cp tp blocks scanR).waypoints ≠ [])
    ∧ ((findSafePath fuel cp tp blocks scanR).reachedTarget = true →
        (agGet (fspTerrain cp blocks).1 (fspTargetXZ tp)).isSome = true
          ∧ ∃ w, (findSafePath fuel cp tp blocks scanR).waypoints.getLast? = some w
              ∧ (w.1, w.2.2) = fspTargetXZ tp) := by
  refine ⟨?_, ?_, ?_⟩
  · intro hnone hne hst
    rw [fspGoal]
    simp only [hnone, Option.isSome_none, Bool.false_eq_true, if_false]
    have hst' : ¬((fspTargetXZ tp).1 - cp.x.floor = 0
        ∧ (fspTargetXZ tp).2 - cp.z.floor = 0) := by
      rintro ⟨ha, hb⟩
      apply hst
      have h1 : cp.x.floor = (fspTargetXZ tp).1 := by omega
      have h2 : cp.z.floor = (fspTargetXZ tp).2 := by omega
      rw [h1, h2]
    obtain ⟨g, hgeq, ⟨kv, hkv, hgkv⟩, hmax⟩ :=
      findEdgeGoal_spec (cp.x.floor, cp.z.floor) (fspTargetXZ tp)
        (fspTerrain cp blocks).1 scanR hne hst'
    refine ⟨g, hgeq, ?_, hmax⟩
    rw [hgkv]
    exact agGet_isSome_of_key _ kv hkv
  · intro hsucc hnone
    obtain ⟨g, path, hg, hp, hw, hiff⟩ := findSafePath_spec fuel cp tp blocks scanR hsucc
    constructor
    · cases hrt : (findSafePath fuel cp tp blocks scanR).reachedTarget with
      | false => rfl
      | true =>
        obtain ⟨hisSome, -, -⟩ := hiff.mp hrt
        rw [hnone] at hisSome
        exact Bool.noConfusion hisSome
    · rw [hw]
      have hpne : path ≠ [] := by
        rcases fspPath_cases hp with hph | ⟨-, hph⟩
        · obtain ⟨g', -, hast⟩ := fspPhase1_astar hph
          exact (astar_ok hast).1
        · obtain ⟨g', -, hast⟩ := fspPhase2_astar hph
          exact (astar_ok hast).1
      intro hcon
      exact hpne (List.map_eq_nil.mp hcon)
  · intro hrt
    have hsucc := findSafePath_reached_success fuel cp tp blocks scanR hrt
    obtain ⟨g, path, hg, hp, hw, hiff⟩ := findSafePath_spec fuel cp tp blocks scanR hsucc
    obtain ⟨hisSome, hgt, -⟩ := hiff.mp hrt
    refine ⟨hisSome, ?_⟩
    have hlast : ∃ gl, path.getLast? = some gl ∧ (gl.1, gl.2.2) = g := by
      rcases fspPath_cases hp with hph | ⟨-, hph⟩
      · obtain ⟨g', hg', hast⟩ := fspPhase1_astar hph
        obtain rfl : g = g' := Option.some.inj (hg.symm.trans hg')
        exact (astar_ok hast).2.2.2
      · obtain ⟨g', hg', hast⟩ := fspPhase2_astar hph
        obtain rfl : g = g' := Option.some.inj (hg.symm.trans hg')
        exact (astar_ok hast).2.2.2
    obtain ⟨gl, hgl, hglg⟩ := hlast
    refine ⟨wpShift gl, ?_, ?_⟩
    · rw [hw, List.getLast?_map, hgl]
      rfl
    · rw [← hgt, ← hglg]
      rfl

/-- C7 counterexample: with the floored start and target columns equal and
outside the scanned heightmap, `_find_edge_goal` substitutes the start
column itself — which is not a heightmap column, against the claim that the
substitute is always a heightmap column of maximal projection. -/
theorem C7_counterexample :
    fspTargetXZ ⟨3/10, 11, 7/10⟩ = (0, 0)
      ∧ agGet (fspTerrain ⟨1/2, 11, 1/2⟩ exFarColumn).1 (0, 0) = none
      ∧ (fspTerrain ⟨1/2, 11, 1/2⟩ exFarColumn).1 ≠ []
      ∧ fspGoal ⟨1/2, 11, 1/2⟩ ⟨3/10, 11, 7/10⟩ exFarColumn 16 = some (0, 0) := by
  refine ⟨by decide, by decide, by decide, by decide⟩

theorem C7_edge_goal_witness :
    (∃ g, fspGoal ⟨0, 11, 0⟩ ⟨5, 11, 0⟩ exFlat 16 = some g
        ∧ (agGet (fspTerrain ⟨0, 11, 0⟩ exFlat).1 g).isSome = true
        ∧ ∀ kv ∈ (fspTerrain ⟨0, 11, 0⟩ exFlat).1,
            edgeSc ((0 : ℚ).floor, (0 : ℚ).floor) (fspTargetXZ ⟨5, 11, 0⟩) kv.1
              ≤ edgeSc ((0 : ℚ).floor, (0 : ℚ).floor) (fspTargetXZ ⟨5, 11, 0⟩) g)
      ∧ ((findSafePath 10 ⟨0, 11, 0⟩ ⟨5, 11, 0⟩ exFlat 16).reachedTarget = false
          ∧ (findSafePath 10 ⟨0, 11, 0⟩ ⟨5, 11, 0⟩ exFlat 16).waypoints ≠ [])
      ∧ ((agGet (fspTerrain ⟨0, 11, 0⟩ exFlat).1 (fspTargetXZ ⟨1, 11, 0⟩)).isSome = true
          ∧ ∃ w, (findSafePath 10 ⟨0, 11, 0⟩ ⟨1, 11, 0⟩ exFlat 16).waypoints.getLast? = some w
              ∧ (w.1, w.2.2) = fspTargetXZ ⟨1, 11, 0⟩) :=
  ⟨(C7_edge_goal 10 ⟨0, 11, 0⟩ ⟨5, 11, 0⟩ exFlat 16).1 (by decide) (by decide) (by decide),
   (C7_edge_goal 10 ⟨0, 11, 0⟩ ⟨5, 11, 0⟩ exFlat 16).2.1 (by decide) (by decide),
   (C7_edge_goal 10 ⟨0, 11, 0⟩ ⟨1, 11, 0⟩ exFlat 16).2.2 (by decide)⟩

/-! ## Claim C8 -/

/-- The `while traveled < distance` loop returns visible exactly when some
visited cell is the target and no strictly earlier visited cell triggered
the blocked test (a positive traversal parameter and membership in the
solid set) or the loop-exit test (parameter at least the ray length). -/
theorem travGo_char (target : P3) (solids : List P3) :
    ∀ (F : Nat) (s : TravState),
      travGo target solids F s = true ↔
        ∃ k, k ≤ F ∧ cellOf (travStep^[k] s) = target
          ∧ ∀ j < k, (travStep^[j] s).traveled < (1 : WithTop ℚ)
            ∧ ¬((0 : WithTop ℚ) < (travStep^[j] s).traveled
                ∧ cellOf (travStep^[j] s) ∈ solids) := by
  intro F
  induction F with
  | zero =>
    intro s
    simp only [travGo]
    constructor
    · intro h
      refine ⟨0, le_refl 0, ?_, ?_⟩
      · simp only [Function.iterate_zero_apply]
        exact of_decide_eq_true h
      · intro j hj
        exact absurd hj (Nat.not_lt_zero j)
    · rintro ⟨k, hk, hcell, -⟩
      obtain rfl : k = 0 := Nat.le_zero.mp hk
      simp only [Function.iterate_zero_apply] at hcell
      exact decide_eq_true hcell
  | succ n ih =>
    intro s
    rw [travGo]
    by_cases htrav : s.traveled < (1 : WithTop ℚ)
    · rw [if_pos htrav]
      by_cases hcell : cellOf s = target
      · rw [if_pos hcell]
        constructor
        · intro _
          refine ⟨0, Nat.zero_le _, ?_, ?_⟩
          · simp only [Function.iterate_zero_apply]
            exact hcell
          · intro j hj
            exact absurd hj (Nat.not_lt_zero j)
        · intro _
          rfl
      · rw [if_neg hcell]
        by_cases hblock : (0 : WithTop ℚ) < s.traveled ∧ cellOf s ∈ solids
        · rw [if_pos hblock]
          constructor
          · intro h
            exact Bool.noConfusion h
          · rintro ⟨k, hk, hcellk, hall⟩
            cases k with
            | zero =>
              simp only [Function.iterate_zero_apply] at hcellk
              exact absurd hcellk hcell
            | succ k' =>
              exact absurd hblock (hall 0 (Nat.succ_pos k')).2
        · rw [if_neg hblock]
          rw [ih (travStep s)]
          constructor
          · rintro ⟨k', hk', hcellk, hall⟩
            refine ⟨k' + 1, Nat.succ_le_succ hk', ?_, ?_⟩
            · rw [Function.iterate_succ_apply]
              exact hcellk
            · intro j hj
              cases j with
              | zero =>
                simp only [Function.iterate_zero_apply]
                exact ⟨htrav, hblock⟩
              | succ j' =>
                rw [Function.iterate_succ_apply]
                exact hall j' (Nat.lt_of_succ_lt_succ hj)
          · rintro ⟨k, hk, hcellk, hall⟩
            cases k with
            | zero =>
              simp only [Function.iterate_zero_apply] at hcellk
              exact absurd hcellk hcell
            | succ k' =>
              refine ⟨k', Nat.le_of_succ_le_succ hk, ?_, ?_⟩
              · rw [← Function.iterate_succ_apply]
                exact hcellk
              · intro j hj
                rw [← Function.iterate_succ_apply]
                exact hall (j + 1) (Nat.succ_lt_succ hj)
    · rw [if_neg htrav]
      constructor
      · intro h
        refine ⟨0, Nat.zero_le _, ?_, ?_⟩
        · simp only [Function.iterate_zero_apply]
          exact of_decide_eq_true h
        · intro j hj
          exact absurd hj (Nat.not_lt_zero j)
      · rintro ⟨k, hk, hcellk, hall⟩
        cases k with
        | zero =>
          simp only [Function.iterate_zero_apply] at hcellk
          exact decide_eq_true hcellk
        | succ k' =>
          exact absurd (hall 0 (Nat.succ_pos k')).1 htrav

/-- C8 (amended): a zero-length ray is trivially visible; a ray strictly
longer than `max_distance` is reported occluded before any traversal (a
case the claim omits — it cannot arise from `filter_visible_blocks`, which
passes the maximum candidate distance); otherwise the target is visible iff
the grid walk reaches the target cell before any blocking cell and before
the accumulated parameter reaches the ray length, in the sense of
`travGo_char`'s right-hand side. -/
theorem C8_voxel_traversal (origin : Vecq) (targetBlock : P3) (solids : List P3)
    (maxDistSq : ℚ) :
    (distSqOf origin targetBlock = 0 →
      voxelTraversal origin targetBlock solids maxDistSq = true)
    ∧ (distSqOf origin targetBlock ≠ 0 → distSqOf origin targetBlock > maxDistSq →
        voxelTraversal origin targetBlock solids maxDistSq = false)
    ∧ (distSqOf origin targetBlock ≠ 0 → ¬(distSqOf origin targetBlock > maxDistSq) →
        (voxelTraversal origin targetBlock solids maxDistSq = true ↔
          ∃ k, k ≤ travFuelOf origin targetBlock
            ∧ cellOf (travStep^[k] (travInit origin targetBlock)) = targetBlock
            ∧ ∀ j < k,
                (travStep^[j] (travInit origin targetBlock)).traveled < (1 : WithTop ℚ)
                  ∧ ¬((0 : WithTop ℚ) < (travStep^[j] (travInit origin targetBlock)).traveled
                      ∧ cellOf (travStep^[j] (travInit origin targetBlock)) ∈ solids))) := by
  refine ⟨?_, ?_, ?_⟩
  · intro h
    rw [voxelTraversal, if_pos h]
  · intro h1 h2
    rw [voxelTraversal, if_neg h1, if_pos h2]
  · intro h1 h2
    rw [voxelTraversal, if_neg h1, if_neg h2]
    exact travGo_char targetBlock solids (travFuelOf origin targetBlock)
      (travInit origin targetBlock)

/-- C8 counterexample: with `max_distance` smaller than the ray length and
a completely clear line, the code reports the target occluded although the
traversal (the claim's stated criterion) reaches the target cell with no
solid hit and within the ray length. -/
theorem C8_counterexample :
    voxelTraversal ⟨1/2, 1/2, 1/2⟩ (3, 0, 0) [] 1 = false
      ∧ ∃ k, k ≤ travFuelOf ⟨1/2, 1/2, 1/2⟩ (3, 0, 0)
          ∧ cellOf (travStep^[k] (travInit ⟨1/2, 1/2, 1/2⟩ (3, 0, 0))) = (3, 0, 0)
          ∧ ∀ j < k,
              (travStep^[j] (travInit ⟨1/2, 1/2, 1/2⟩ (3, 0, 0))).traveled < (1 : WithTop ℚ)
                ∧ ¬((0 : WithTop ℚ)
                      < (travStep^[j] (travInit ⟨1/2, 1/2, 1/2⟩ (3, 0, 0))).traveled
                    ∧ cellOf (travStep^[j] (travInit ⟨1/2, 1/2, 1/2⟩ (3, 0, 0))) ∈ ([] : List P3)) := by
  refine ⟨by decide, 3, by decide, by decide, ?_⟩
  intro j hj
  interval_cases j <;> exact ⟨by decide, by decide⟩

theorem C8_voxel_traversal_witness :
    distSqOf ⟨1/2, 1/2, 1/2⟩ (2, 0, 0) ≠ 0
      ∧ ¬(distSqOf ⟨1/2, 1/2, 1/2⟩ (2, 0, 0) > 100)
      ∧ (voxelTraversal ⟨1/2, 1/2, 1/2⟩ (2, 0, 0) [] 100 = true ↔
          ∃ k, k ≤ travFuelOf ⟨1/2, 1/2, 1/2⟩ (2, 0, 0)
            ∧ cellOf (travStep^[k] (travInit ⟨1/2, 1/2, 1/2⟩ (2, 0, 0))) = (2, 0, 0)
            ∧ ∀ j < k,
                (travStep^[j] (travInit ⟨1/2, 1/2, 1/2⟩ (2, 0, 0))).traveled < (1 : WithTop ℚ)
                  ∧ ¬((0 : WithTop ℚ)
                        < (travStep^[j] (travInit ⟨1/2, 1/2, 1/2⟩ (2, 0, 0))).traveled
                      ∧ cellOf (travStep^[j] (travInit ⟨1/2, 1/2, 1/2⟩ (2, 0, 0))) ∈ ([] : List P3))) :=
  ⟨by decide, by decide,
    (C8_voxel_traversal ⟨1/2, 1/2, 1/2⟩ (2, 0, 0) [] 100).2.2 (by decide) (by decide)⟩

end VS
